import Mathlib

/-!
# Verification of the observational-memory reflection pipeline

This file gives a shallow embedding of the reflection condensation pipeline of
the `observational-memory` repository (`reflect.py`, `observe.py`, `config.py`)
and proves the specification claims about it.

Modelling conventions:

* A text document is represented by its character list (`List Char`); Python
  string slicing, concatenation and length translate to list operations
  exactly.  A "line" is a maximal `'\n'`-free segment, matching Python's
  `re.MULTILINE` anchors `^`/`$`.
* Python compares date strings (`"YYYY-MM-DD"`) with the code-point
  lexicographic string order; `ltChars`/`leChars` below implement that order.
* Character classes (`\d`, `\s`, `\w`, `str.strip`) are modelled over their
  ASCII parts, which is exact for every document this pipeline manipulates.
* The two timestamp regexes of `reflect.py` are modelled line-locally: the
  `\s*` in `_LAST_REFLECTED_RE` is taken not to cross a line break.
* The compression oracle (`llm.compress`) is an explicit parameter
  `Oracle ε = List Char → List Char → Except ε (List Char)`; an `.error`
  result models the provider raising an exception.  `datetime.now` and the
  retention cutoff are parameters of the run functions.
-/

namespace ObsMemory

/-! ## Character-level primitives shared by filtering, chunking and trimming -/

/-- Python whitespace test, restricted to the ASCII characters that occur in
the pipeline's documents (models `str.strip` / `\s` within one line). -/
def isPyWhite (c : Char) : Bool :=
  c = ' ' || c = '\t' || c = '\n' || c = '\r'

/-- Recognizer for the ten characters of a `\d{4}-\d{2}-\d{2}` date. -/
def isDateShape : List Char → Bool
  | [y1, y2, y3, y4, h1, m1, m2, h2, d1, d2] =>
    y1.isDigit && y2.isDigit && y3.isDigit && y4.isDigit && h1 = '-' &&
    m1.isDigit && m2.isDigit && h2 = '-' && d1.isDigit && d2.isDigit
  | _ => false

/-- Recognizer for the thirteen characters of `## \d{4}-\d{2}-\d{2}`. -/
def isHeadShape : List Char → Bool
  | '#' :: '#' :: ' ' :: rest => isDateShape rest
  | _ => false

/-- Does `^## \d{4}-\d{2}-\d{2}` match at the start of `s`?  (The split
pattern of `_chunk_observations`, `_filter_new_observations` and
`_trim_old_observations`, and the line pattern of
`_extract_latest_observation_date`.) -/
def headerStart (s : List Char) : Bool :=
  isHeadShape (s.take 13)

/-- The date captured by `## (\d{4}-\d{2}-\d{2})` when it matches at the
start of `s`. -/
def headerDate? (s : List Char) : Option (List Char) :=
  if isHeadShape (s.take 13) then some ((s.drop 3).take 10) else none

/-- Python's code-point lexicographic `<` on strings (as character lists). -/
def ltChars : List Char → List Char → Bool
  | [], [] => false
  | [], _ :: _ => true
  | _ :: _, [] => false
  | a :: as, b :: bs => if a < b then true else if b < a then false else ltChars as bs

/-- Python's `<=` on strings: `a <= b` iff `¬ (b < a)`. -/
def leChars (a b : List Char) : Bool :=
  !(ltChars b a)

theorem ltChars_irrefl (a : List Char) : ltChars a a = false := by
  induction a with
  | nil => rfl
  | cons c cs ih => simp [ltChars, ih]

theorem leChars_refl (a : List Char) : leChars a a = true := by
  simp [leChars, ltChars_irrefl]

theorem ltChars_trichot (a b : List Char) :
    ltChars a b = true ∨ a = b ∨ ltChars b a = true := by
  induction a generalizing b with
  | nil =>
    cases b with
    | nil => exact Or.inr (Or.inl rfl)
    | cons d ds => exact Or.inl (by simp [ltChars])
  | cons x xs ih =>
    cases b with
    | nil => exact Or.inr (Or.inr (by simp [ltChars]))
    | cons z zs =>
      rcases lt_trichotomy x z with h | h | h
      · exact Or.inl (by simp [ltChars, h])
      · subst h
        rcases ih zs with h1 | h1 | h1
        · exact Or.inl (by simp [ltChars, h1])
        · exact Or.inr (Or.inl (by rw [h1]))
        · exact Or.inr (Or.inr (by simp [ltChars, h1]))
      · have hxz : ¬ x < z := fun hc => absurd (lt_trans h hc) (lt_irrefl z)
        exact Or.inr (Or.inr (by simp [ltChars, h, hxz]))

theorem ltChars_trans {a b c : List Char} (hab : ltChars a b = true)
    (hbc : ltChars b c = true) : ltChars a c = true := by
  induction a generalizing b c with
  | nil =>
    cases c with
    | nil =>
      cases b with
      | nil => simpa using hab
      | cons d ds => simp [ltChars] at hbc
    | cons e es => simp [ltChars]
  | cons x xs ih =>
    cases b with
    | nil => simp [ltChars] at hab
    | cons y ys =>
      cases c with
      | nil => simp [ltChars] at hbc
      | cons z zs =>
        by_cases hxy : x < y
        · by_cases hyz : y < z
          · have hxz : x < z := lt_trans hxy hyz
            simp [ltChars, hxz]
          · by_cases hzy : z < y
            · simp [ltChars, hyz, hzy] at hbc
            · have hyzeq : y = z := le_antisymm (not_lt.mp hzy) (not_lt.mp hyz)
              subst hyzeq
              simp [ltChars, hxy]
        · by_cases hyx : y < x
          · simp [ltChars, hxy, hyx] at hab
          · have hxyeq : x = y := le_antisymm (not_lt.mp hyx) (not_lt.mp hxy)
            subst hxyeq
            simp only [ltChars, if_neg hxy, if_neg hyx] at hab
            by_cases hyz : x < z
            · simp [ltChars, hyz]
            · by_cases hzy : z < x
              · simp [ltChars, hyz, hzy] at hbc
              · have : x = z := le_antisymm (not_lt.mp hzy) (not_lt.mp hyz)
                subst this
                simp only [ltChars, if_neg hyz, if_neg hzy] at hbc ⊢
                exact ih hab hbc

theorem ltChars_asymm {a b : List Char} (h : ltChars a b = true) :
    ltChars b a = false := by
  cases h' : ltChars b a with
  | false => rfl
  | true =>
    have := ltChars_trans h h'
    simp [ltChars_irrefl] at this

theorem leChars_trans {a b c : List Char} (hab : leChars a b = true)
    (hbc : leChars b c = true) : leChars a c = true := by
  simp only [leChars, Bool.not_eq_true'] at hab hbc ⊢
  rcases Bool.eq_false_or_eq_true (ltChars c a) with h | h
  swap
  · exact h
  · rcases ltChars_trichot a b with h1 | h1 | h1
    · rcases ltChars_trichot b c with h2 | h2 | h2
      · have := ltChars_trans (ltChars_trans h1 h2) h
        simp [ltChars_irrefl] at this
      · subst h2
        have := ltChars_trans h1 h
        simp [ltChars_irrefl] at this
      · exact absurd h2 (by simp [hbc])
    · subst h1
      rcases ltChars_trichot a c with h2 | h2 | h2
      · have := ltChars_trans h2 h
        simp [ltChars_irrefl] at this
      · subst h2
        simp [ltChars_irrefl] at h
      · exact absurd h2 (by simp [hbc])
    · exact absurd h1 (by simp [hab])

/-! ## Date-section splitting (shared primitive)

`re.split(r"(?=^## \d{4}-\d{2}-\d{2})", text, flags=re.MULTILINE)` cuts the
text immediately before every line whose first thirteen characters match
`## \d{4}-\d{2}-\d{2}`.  `splitAux` walks the text and cuts after each `'\n'`
that is followed by such a line; `splitSections` adds the cut at position 0.
The result is the Python list `[prefix] ++ sections` with the prefix separated
out (Python's first element is `""` exactly when the model's prefix is `[]`).
-/

/-- Cut `s` after every newline that is followed by a date-header line.
Returns (first piece, later pieces). -/
def splitAux : List Char → List Char × List (List Char)
  | [] => ([], [])
  | c :: cs =>
    let r := splitAux cs
    if c = '\n' && headerStart cs then ([c], r.1 :: r.2) else (c :: r.1, r.2)

/-- The document split of `reflect.py`: everything before the first date
header (the document header), and the list of date sections. -/
def splitSections (s : List Char) : List Char × List (List Char) :=
  let r := splitAux s
  if headerStart s then ([], r.1 :: r.2) else r

/-- Python `section.strip()` followed by `re.match(r"## (\d{4}-\d{2}-\d{2})", ...)`:
a right strip cannot change the thirteen-character prefix, so only the left
strip is modelled. -/
def sectionDate? (s : List Char) : Option (List Char) :=
  headerDate? (s.dropWhile isPyWhite)

/-- Python `not text.strip()`: the text is empty or all whitespace. -/
def isBlank (s : List Char) : Bool :=
  s.all isPyWhite

/-! ## Lines

`splitLines` splits a text at every `'\n'` (Python `text.split("\n")` /
the lines seen by `re.MULTILINE` anchors); `joinLines` is its inverse. -/

/-- Split a text into its newline-separated lines (`n` newlines give `n + 1`
lines). -/
def splitLines : List Char → List (List Char)
  | [] => [[]]
  | c :: cs =>
    if c = '\n' then [] :: splitLines cs
    else
      match splitLines cs with
      | [] => [[c]]
      | l :: ls => (c :: l) :: ls

/-- Join lines back into a text with `'\n'` separators. -/
def joinLines : List (List Char) → List Char
  | [] => []
  | [l] => l
  | l :: ls => l ++ '\n' :: joinLines ls

/-- The dates captured by `re.findall(r"^## (\d{4}-\d{2}-\d{2})", s, re.MULTILINE)`. -/
def headerDates (s : List Char) : List (List Char) :=
  (splitLines s).filterMap headerDate?

theorem splitLines_ne_nil (s : List Char) : splitLines s ≠ [] := by
  cases s with
  | nil => simp [splitLines]
  | cons c cs =>
    by_cases h : c = '\n'
    · simp [splitLines, h]
    · simp only [splitLines, if_neg h]
      cases splitLines cs <;> simp

theorem splitAux_join (s : List Char) :
    (splitAux s).1 ++ (splitAux s).2.foldr (· ++ ·) [] = s := by
  induction s with
  | nil => rfl
  | cons c cs ih =>
    by_cases h : (c = '\n' && headerStart cs) = true
    · simp only [splitAux, h, if_pos rfl]
      simpa using ih
    · simp only [splitAux]
      rw [if_neg (by simpa using h)]
      simpa using ih

theorem splitSections_join (s : List Char) :
    (splitSections s).1 ++ (splitSections s).2.foldr (· ++ ·) [] = s := by
  unfold splitSections
  by_cases h : headerStart s
  · simp only [h, if_pos rfl]
    simpa using splitAux_join s
  · rw [if_neg (by simp [h])]
    exact splitAux_join s

theorem isHeadShape_shape {t : List Char} (h : isHeadShape t = true) :
    ∃ a b c d e f g k,
      t = '#' :: '#' :: ' ' :: [a, b, c, d, '-', e, f, '-', g, k] ∧
      a.isDigit ∧ b.isDigit ∧ c.isDigit ∧ d.isDigit ∧
      e.isDigit ∧ f.isDigit ∧ g.isDigit ∧ k.isDigit := by
  unfold isHeadShape at h
  split at h
  · unfold isDateShape at h
    split at h
    · simp only [Bool.and_eq_true, decide_eq_true_eq] at h
      obtain ⟨⟨⟨⟨⟨⟨⟨⟨⟨h1, h2⟩, h3⟩, h4⟩, h5⟩, h6⟩, h7⟩, h8⟩, h9⟩, h10⟩ := h
      subst h5
      subst h8
      exact ⟨_, _, _, _, _, _, _, _, rfl, h1, h2, h3, h4, h6, h7, h9, h10⟩
    all_goals simp at h
  all_goals simp at h

theorem isHeadShape_no_newline {t : List Char} (h : isHeadShape t = true) :
    '\n' ∉ t := by
  obtain ⟨a, b, c, d, e, f, g, k, ht, ha, hb, hc, hd, he, hf, hg, hk⟩ :=
    isHeadShape_shape h
  subst ht
  intro hmem
  have hdig : ('\n' : Char).isDigit = false := by decide
  simp only [List.mem_cons, List.not_mem_nil, or_false] at hmem
  rcases hmem with h' | h' | h' | h' | h' | h' | h' | h' | h' | h' | h' | h' | h' <;>
    first
      | exact absurd h'.symm (by decide)
      | (subst h'; simp_all)

theorem headerDate?_congr {s t : List Char} (h : s.take 13 = t.take 13) :
    headerDate? s = headerDate? t := by
  have hd : (s.drop 3).take 10 = (t.drop 3).take 10 := by
    have h1 : (s.take 13).drop 3 = (t.take 13).drop 3 := by rw [h]
    simpa [List.drop_take] using h1
  unfold headerDate?
  rw [h, hd]

theorem headerStart_cons_hash {s : List Char} (h : headerStart s = true) :
    ∃ rest, s = '#' :: rest := by
  obtain ⟨a, b, c, d, e, f, g, k, ht, -⟩ := isHeadShape_shape h
  cases s with
  | nil => simp [List.take] at ht
  | cons x xs =>
    refine ⟨xs, ?_⟩
    have : x = '#' := by
      have := congrArg (fun l => l.head?) ht
      simpa [List.take] using this
    rw [this]

theorem splitAux_fst_eq_take (s : List Char) :
    (splitAux s).1 = s.take (splitAux s).1.length := by
  have h := splitAux_join s
  have h2 : ((splitAux s).1 ++ (splitAux s).2.foldr (· ++ ·) []).take
      (splitAux s).1.length = (splitAux s).1 := List.take_left _ _
  rw [h] at h2
  exact h2.symm

theorem splitAux_fst_last_nl {s : List Char} (h : (splitAux s).2 ≠ []) :
    ∃ u, (splitAux s).1 = u ++ ['\n'] := by
  induction s with
  | nil => simp [splitAux] at h
  | cons c cs ih =>
    by_cases hc : (c = '\n' && headerStart cs) = true
    · exact ⟨[], by simp only [splitAux, hc, if_pos rfl]; simp_all⟩
    · simp only [splitAux] at h ⊢
      rw [if_neg (by simpa using hc)] at h ⊢
      obtain ⟨u, hu⟩ := ih (by simpa using h)
      exact ⟨c :: u, by simp [hu]⟩

theorem take_13_of_take {s t : List Char} (ht : t = s.take t.length)
    (hlen : 13 ≤ t.length) : t.take 13 = s.take 13 := by
  rw [ht, List.take_take, min_eq_left hlen]

theorem headerStart_splitAux_fst {s : List Char} (h : headerStart s = true) :
    headerStart (splitAux s).1 = true := by
  rcases Classical.em ((splitAux s).2 = []) with hnil | hnil
  · have : (splitAux s).1 = s := by
      have hj := splitAux_join s
      rwa [hnil, List.foldr_nil, List.append_nil] at hj
    rwa [this]
  · obtain ⟨u, hu⟩ := splitAux_fst_last_nl hnil
    have htake := splitAux_fst_eq_take s
    have hnl : '\n' ∉ s.take 13 := isHeadShape_no_newline h
    have hlen : 13 ≤ (splitAux s).1.length := by
      by_contra hlt
      push_neg at hlt
      have hmem : '\n' ∈ (splitAux s).1 := by simp [hu]
      have hsub : (splitAux s).1 ⊆ s.take 13 := by
        intro x hx
        rw [htake] at hx
        have h13 : s.take (splitAux s).1.length = (s.take 13).take (splitAux s).1.length := by
          rw [List.take_take, min_eq_left (by omega)]
        rw [h13] at hx
        exact List.take_subset _ _ hx
      exact hnl (hsub hmem)
    unfold headerStart at h ⊢
    rwa [take_13_of_take htake hlen]

theorem mem_splitAux_snd_headerStart {s p : List Char}
    (h : p ∈ (splitAux s).2) : headerStart p = true := by
  induction s with
  | nil => simp [splitAux] at h
  | cons c cs ih =>
    by_cases hc : (c = '\n' && headerStart cs) = true
    · have hs : (splitAux (c :: cs)).2 = (splitAux cs).1 :: (splitAux cs).2 := by
        simp [splitAux, hc]
      rw [hs] at h
      rcases List.mem_cons.mp h with h | h
      · subst h
        have hcs : headerStart cs = true := by
          simpa using (Bool.and_eq_true _ _ |>.mp hc).2
        exact headerStart_splitAux_fst hcs
      · exact ih h
    · have hs : (splitAux (c :: cs)).2 = (splitAux cs).2 := by
        simp only [splitAux]
        rw [if_neg (by simpa using hc)]
      rw [hs] at h
      exact ih h

theorem mem_splitSections_snd_headerStart {s p : List Char}
    (h : p ∈ (splitSections s).2) : headerStart p = true := by
  unfold splitSections at h
  by_cases hs : headerStart s
  · rw [if_pos (by simpa using hs)] at h
    simp only [List.mem_cons] at h
    rcases h with h | h
    · subst h
      exact headerStart_splitAux_fst hs
    · exact mem_splitAux_snd_headerStart h
  · rw [if_neg (by simpa using hs)] at h
    exact mem_splitAux_snd_headerStart h

theorem headerStart_sectionDate {p : List Char} (h : headerStart p = true) :
    sectionDate? p = headerDate? p ∧ (headerDate? p).isSome := by
  obtain ⟨rest, hp⟩ := headerStart_cons_hash h
  constructor
  · unfold sectionDate?
    rw [hp]
    simp [List.dropWhile, isPyWhite]
  · unfold headerDate?
    unfold headerStart at h
    simp [h]

/-! ## Line structure lemmas -/

theorem splitLines_mem_no_nl {s l : List Char} (h : l ∈ splitLines s) :
    '\n' ∉ l := by
  induction s generalizing l with
  | nil =>
    simp only [splitLines, List.mem_singleton] at h
    subst h
    simp
  | cons c cs ih =>
    by_cases hc : c = '\n'
    · rw [splitLines, if_pos hc] at h
      rcases List.mem_cons.mp h with h | h
      · subst h; simp
      · exact ih h
    · rw [splitLines, if_neg hc] at h
      cases hsc : splitLines cs with
      | nil => exact absurd hsc (splitLines_ne_nil cs)
      | cons l0 ls =>
        rw [hsc] at h
        rcases List.mem_cons.mp h with h | h
        · subst h
          intro hmem
          rcases List.mem_cons.mp hmem with h' | h'
          · exact hc h'.symm
          · exact ih (hsc ▸ List.mem_cons_self l0 ls) h'
        · exact ih (hsc ▸ List.mem_cons_of_mem l0 h)

theorem splitLines_head (s : List Char) :
    ∃ ls, splitLines s = (s.takeWhile (fun c => c != '\n')) :: ls := by
  induction s with
  | nil => exact ⟨[], rfl⟩
  | cons c cs ih =>
    by_cases hc : c = '\n'
    · subst hc
      refine ⟨splitLines cs, ?_⟩
      rw [splitLines, if_pos rfl]
      simp [List.takeWhile]
    · obtain ⟨ls, hls⟩ := ih
      refine ⟨ls, ?_⟩
      rw [splitLines, if_neg hc, hls]
      have hb : (c != '\n') = true := by simp [hc]
      simp [List.takeWhile, hb]

theorem splitLines_append_nl {x : List Char} (y : List Char) (hx : '\n' ∉ x) :
    splitLines (x ++ '\n' :: y) = x :: splitLines y := by
  induction x with
  | nil => simp [splitLines]
  | cons c cs ih =>
    have hc : c ≠ '\n' := fun h => hx (h ▸ List.mem_cons_self c cs)
    have hcs : '\n' ∉ cs := fun h => hx (List.mem_cons_of_mem c h)
    rw [List.cons_append, splitLines, if_neg hc, ih hcs]

theorem splitLines_no_nl_self {x : List Char} (hx : '\n' ∉ x) :
    splitLines x = [x] := by
  induction x with
  | nil => rfl
  | cons c cs ih =>
    have hc : c ≠ '\n' := fun h => hx (h ▸ List.mem_cons_self c cs)
    have hcs : '\n' ∉ cs := fun h => hx (List.mem_cons_of_mem c h)
    rw [splitLines, if_neg hc, ih hcs]

theorem joinLines_cons_cons (c : Char) (l : List Char) (ls : List (List Char)) :
    joinLines ((c :: l) :: ls) = c :: joinLines (l :: ls) := by
  cases ls <;> simp [joinLines]

theorem joinLines_splitLines (s : List Char) : joinLines (splitLines s) = s := by
  induction s with
  | nil => rfl
  | cons c cs ih =>
    by_cases hc : c = '\n'
    · subst hc
      rw [splitLines, if_pos rfl]
      cases hsc : splitLines cs with
      | nil => exact absurd hsc (splitLines_ne_nil cs)
      | cons l0 ls =>
        rw [← hsc]
        show joinLines ([] :: splitLines cs) = '\n' :: cs
        rw [hsc]
        show [] ++ '\n' :: joinLines (l0 :: ls) = '\n' :: cs
        rw [List.nil_append, ← hsc, ih]
    · rw [splitLines, if_neg hc]
      cases hsc : splitLines cs with
      | nil => exact absurd hsc (splitLines_ne_nil cs)
      | cons l0 ls =>
        rw [joinLines_cons_cons, ← hsc, ih]

theorem splitLines_joinLines {L : List (List Char)} (hnl : ∀ l ∈ L, '\n' ∉ l)
    (hne : L ≠ []) : splitLines (joinLines L) = L := by
  induction L with
  | nil => exact absurd rfl hne
  | cons l ls ih =>
    cases ls with
    | nil =>
      show splitLines (joinLines [l]) = [l]
      rw [show joinLines [l] = l from rfl]
      exact splitLines_no_nl_self (hnl l (List.mem_cons_self l []))
    | cons l1 ls1 =>
      show splitLines (l ++ '\n' :: joinLines (l1 :: ls1)) = l :: l1 :: ls1
      rw [splitLines_append_nl _ (hnl l (List.mem_cons_self _ _))]
      rw [ih (fun x hx => hnl x (List.mem_cons_of_mem l hx)) (by simp)]

/-! ## Dates of header lines -/

theorem take_13_no_nl_takeWhile {s : List Char} (h : '\n' ∉ s.take 13) :
    (s.takeWhile (fun c => c != '\n')).take 13 = s.take 13 := by
  have gen : ∀ (n : Nat) (s : List Char), '\n' ∉ s.take n →
      (s.takeWhile (fun c => c != '\n')).take n = s.take n := by
    intro n
    induction n with
    | zero => intro s _; simp
    | succ m ih =>
      intro s hs
      cases s with
      | nil => simp
      | cons c cs =>
        have hc : c ≠ '\n' := by
          intro h'
          exact hs (by simp [List.take, h'])
        have hcs : '\n' ∉ cs.take m := by
          intro h'
          exact hs (by simp [List.take]; right; exact h')
        have hb : (c != '\n') = true := by simp [hc]
        rw [List.takeWhile]
        simp only [hb]
        show (c :: cs.takeWhile (fun c => c != '\n')).take (m + 1) = (c :: cs).take (m + 1)
        simp only [List.take_succ_cons]
        rw [ih cs hcs]
  exact gen 13 s h

theorem headerDate?_some_mem {s d : List Char} (h : headerDate? s = some d) :
    d ∈ headerDates s := by
  have hstart : headerStart s = true := by
    unfold headerDate? at h
    unfold headerStart
    by_contra hns
    rw [if_neg (by simpa using hns)] at h
    exact Option.noConfusion h
  have hnl : '\n' ∉ s.take 13 := isHeadShape_no_newline hstart
  obtain ⟨ls, hls⟩ := splitLines_head s
  have hline : headerDate? (s.takeWhile (fun c => c != '\n')) = some d := by
    rw [headerDate?_congr (take_13_no_nl_takeWhile hnl), h]
  unfold headerDates
  rw [hls]
  exact List.mem_filterMap.mpr ⟨_, List.mem_cons_self _ _, hline⟩

theorem tail_filterMap_subset_headerDates (s : List Char) {d : List Char}
    (h : d ∈ (splitLines s).tail.filterMap headerDate?) : d ∈ headerDates s := by
  unfold headerDates
  obtain ⟨l, hl, hld⟩ := List.mem_filterMap.mp h
  exact List.mem_filterMap.mpr ⟨l, List.tail_subset _ hl, hld⟩

theorem splitAux_fst_take13 {s : List Char} (h : headerStart s = true) :
    (splitAux s).1.take 13 = s.take 13 := by
  rcases Classical.em ((splitAux s).2 = []) with hnil | hnil
  · have hfst : (splitAux s).1 = s := by
      have hj := splitAux_join s
      rwa [hnil, List.foldr_nil, List.append_nil] at hj
    rw [hfst]
  · obtain ⟨u, hu⟩ := splitAux_fst_last_nl hnil
    have htake := splitAux_fst_eq_take s
    have hnl : '\n' ∉ s.take 13 := isHeadShape_no_newline h
    have hlen : 13 ≤ (splitAux s).1.length := by
      by_contra hlt
      push_neg at hlt
      have hmem : '\n' ∈ (splitAux s).1 := by simp [hu]
      have hsub : (splitAux s).1 ⊆ s.take 13 := by
        intro x hx
        rw [htake] at hx
        have h13 : s.take (splitAux s).1.length = (s.take 13).take (splitAux s).1.length := by
          rw [List.take_take, min_eq_left (by omega)]
        rw [h13] at hx
        exact List.take_subset _ _ hx
      exact hnl (hsub hmem)
    exact take_13_of_take htake hlen

theorem mem_splitAux_dates {s : List Char} :
    ∀ {p d : List Char}, p ∈ (splitAux s).2 → headerDate? p = some d →
      d ∈ (splitLines s).tail.filterMap headerDate? := by
  induction s with
  | nil => intro p d hp _; simp [splitAux] at hp
  | cons c cs ih =>
    intro p d hp hd
    by_cases hc : (c = '\n' && headerStart cs) = true
    · have hceq : c = '\n' := by simpa using (Bool.and_eq_true _ _ |>.mp hc).1
      have hcs : headerStart cs = true := by
        simpa using (Bool.and_eq_true _ _ |>.mp hc).2
      have hs2 : (splitAux (c :: cs)).2 = (splitAux cs).1 :: (splitAux cs).2 := by
        simp [splitAux, hc]
      have htail : (splitLines (c :: cs)).tail = splitLines cs := by
        rw [hceq, splitLines, if_pos rfl]
        rfl
      rw [hs2] at hp
      rw [htail]
      rcases List.mem_cons.mp hp with hp | hp
      · subst hp
        have : headerDate? cs = some d := by
          rw [← headerDate?_congr (splitAux_fst_take13 hcs)]
          exact hd
        exact headerDate?_some_mem this
      · exact tail_filterMap_subset_headerDates cs (ih hp hd)
    · have hs2 : (splitAux (c :: cs)).2 = (splitAux cs).2 := by
        simp only [splitAux]
        rw [if_neg (by simpa using hc)]
      rw [hs2] at hp
      by_cases hceq : c = '\n'
      · have htail : (splitLines (c :: cs)).tail = splitLines cs := by
          rw [hceq, splitLines, if_pos rfl]
          rfl
        rw [htail]
        exact tail_filterMap_subset_headerDates cs (ih hp hd)
      · have htail : (splitLines (c :: cs)).tail = (splitLines cs).tail := by
          rw [splitLines, if_neg hceq]
          cases hsc : splitLines cs with
          | nil => exact absurd hsc (splitLines_ne_nil cs)
          | cons l0 ls => simp
        rw [htail]
        exact ih hp hd

theorem mem_splitSections_dates {s p d : List Char}
    (hp : p ∈ (splitSections s).2) (hd : headerDate? p = some d) :
    d ∈ headerDates s := by
  unfold splitSections at hp
  by_cases hs : headerStart s
  · rw [if_pos (by simpa using hs)] at hp
    rcases List.mem_cons.mp hp with hp | hp
    · subst hp
      have : headerDate? s = some d := by
        rw [← headerDate?_congr (splitAux_fst_take13 hs)]
        exact hd
      exact headerDate?_some_mem this
    · exact tail_filterMap_subset_headerDates s (mem_splitAux_dates hp hd)
  · rw [if_neg (by simpa using hs)] at hp
    exact tail_filterMap_subset_headerDates s (mem_splitAux_dates hp hd)

/-! ## Maximum of a date list (Python `max`) -/

/-- Python `max(dates)` for a nonempty list, `None` otherwise (`max` keeps the
current value on ties, replacing only on strictly greater items). -/
def maxDate : List (List Char) → Option (List Char)
  | [] => none
  | d :: ds => some (ds.foldl (fun a b => if ltChars a b then b else a) d)

theorem foldl_maxDate_bounds (ds : List (List Char)) (a : List Char) :
    leChars a (ds.foldl (fun a b => if ltChars a b then b else a) a) = true ∧
    ∀ d ∈ ds, leChars d (ds.foldl (fun a b => if ltChars a b then b else a) a) = true := by
  induction ds generalizing a with
  | nil => exact ⟨leChars_refl a, by simp⟩
  | cons d ds ih =>
    have step : leChars a (if ltChars a d then d else a) = true ∧
        leChars d (if ltChars a d then d else a) = true := by
      by_cases h : ltChars a d = true
      · rw [if_pos h]
        exact ⟨by simp [leChars, ltChars_asymm h], leChars_refl d⟩
      · rw [if_neg (by simpa using h)]
        exact ⟨leChars_refl a, by simp [leChars]; simpa using h⟩
    obtain ⟨ih1, ih2⟩ := ih (if ltChars a d then d else a)
    refine ⟨leChars_trans step.1 ih1, ?_⟩
    intro x hx
    rcases List.mem_cons.mp hx with hx | hx
    · subst hx
      exact leChars_trans step.2 ih1
    · exact ih2 x hx

theorem le_maxDate {ds : List (List Char)} {d m : List Char}
    (hm : maxDate ds = some m) (hd : d ∈ ds) : leChars d m = true := by
  cases ds with
  | nil => simp at hd
  | cons d0 ds0 =>
    have hm' : m = ds0.foldl (fun a b => if ltChars a b then b else a) d0 := by
      simpa [maxDate] using hm.symm
    subst hm'
    rcases List.mem_cons.mp hd with hd | hd
    · subst hd
      exact (foldl_maxDate_bounds ds0 d).1
    · exact (foldl_maxDate_bounds ds0 d0).2 d hd

/-! ## Translations of the document operations of `reflect.py` -/

/-- Character list of a string literal. -/
def chars (s : String) : List Char :=
  s.data

/-- The `_LAST_UPDATED_RE` line pattern `^\*Last updated:.*\*$` (`.` does not
match a newline, so a match is one full line). -/
def isLastUpdatedLine (l : List Char) : Bool :=
  (chars "*Last updated:").isPrefixOf l && 15 ≤ l.length && l.getLast? == some '*'

/-- Python `\w`, ASCII part. -/
def isWordChar (c : Char) : Bool :=
  c.isAlphanum || c = '_'

/-- Line-local model of `_LAST_REFLECTED_RE`, the pattern
`^\*Last reflected:\s*(\d{4}-\d{2}-\d{2})\b.*\*$`: returns the captured date
when the line matches. -/
def lastReflectedDate? (l : List Char) : Option (List Char) :=
  if (chars "*Last reflected:").isPrefixOf l then
    let rest := (l.drop 16).dropWhile (fun c => c = ' ' || c = '\t' || c = '\r')
    let date := rest.take 10
    let afterDate := rest.drop 10
    if isDateShape date then
      match afterDate with
      | [] => none
      | a :: _ =>
        if isWordChar a then none
        else if afterDate.getLast? == some '*' then some date else none
    else none
  else none

/-- A line matched by `_LAST_REFLECTED_RE`. -/
def isLastReflectedLine (l : List Char) : Bool :=
  (lastReflectedDate? l).isSome

/-- The `_parse_last_reflected` function: captured date of the first matching
line, if any. -/
def parseLastReflected (reflections : List Char) : Option (List Char) :=
  ((splitLines reflections).filterMap lastReflectedDate?).head?

/-- The `_extract_latest_observation_date` function:
`max(re.findall(r"^## (\d{4}-\d{2}-\d{2})", observations, re.MULTILINE))`
when nonempty, else `None`. -/
def extractLatestObservationDate (observations : List Char) : Option (List Char) :=
  maxDate (headerDates observations)

/-- Python `text.rstrip()`. -/
def rstrip (s : List Char) : List Char :=
  (s.reverse.dropWhile isPyWhite).reverse

/-- The Python split list `[prefix] ++ sections` iterated by the
`for section in sections` loops of `reflect.py`. -/
def splitElems (s : List Char) : List (List Char) :=
  (splitSections s).1 :: (splitSections s).2

/-- Loop body of `_filter_new_observations`: a dated element is kept when its
date is `>= since_date`, a non-dated element becomes the header. -/
def filterStep (sinceDate : List Char) (st : List Char × List (List Char))
    (sec : List Char) : List Char × List (List Char) :=
  match sectionDate? sec with
  | some d => (st.1, if leChars sinceDate d then st.2 ++ [sec] else st.2)
  | none => (sec, st.2)

/-- The `_filter_new_observations` function. -/
def filterNewObservations (observations : List Char) : Option (List Char) → List Char
  | none => observations
  | some sinceDate =>
    let r := (splitElems observations).foldl (filterStep sinceDate) ([], [])
    if r.2.isEmpty then [] else r.1 ++ r.2.foldr (· ++ ·) []

/-- Per-chunk character budget of `_chunk_observations`:
`int(_MAX_INPUT_TOKENS * _CHARS_PER_TOKEN * 0.6)` evaluates to exactly
`63000` in Python float arithmetic. -/
def budgetChars : Nat := 63000

/-- First loop of `_chunk_observations`: separate the header from the date
sections. -/
def chunkClassify (st : List Char × List (List Char)) (sec : List Char) :
    List Char × List (List Char) :=
  if (sectionDate? sec).isSome then (st.1, st.2 ++ [sec]) else (sec, st.2)

/-- Second loop of `_chunk_observations`: flush the current chunk when adding
the next section would exceed the budget (unless the current chunk is blank),
then append the section. -/
def chunkStep (header : List Char) (st : List (List Char) × List Char)
    (sec : List Char) : List (List Char) × List Char :=
  if budgetChars < st.2.length + sec.length && !(isBlank st.2) then
    (st.1 ++ [st.2], header ++ sec)
  else (st.1, st.2 ++ sec)

/-- The `_chunk_observations` function. -/
def chunkObservations (observations : List Char) : List (List Char) :=
  let hd := (splitElems observations).foldl chunkClassify ([], [])
  let header := hd.1
  let dateSections := hd.2
  if dateSections.isEmpty then [observations]
  else
    let r := dateSections.foldl (chunkStep header) ([], header)
    let chunks := if !(isBlank r.2) then r.1 ++ [r.2] else r.1
    if chunks.isEmpty then [observations] else chunks

/-- Replace the first line satisfying `p` with the lines `new` (model of
`re.sub(..., count=1)` for a line-anchored pattern; a replacement text
containing a newline becomes two lines). -/
def replaceFirstLine (p : List Char → Bool) (new : List (List Char)) :
    List (List Char) → List (List Char)
  | [] => []
  | l :: ls => if p l then new ++ ls else l :: replaceFirstLine p new ls

/-- The replacement text `f"*Last updated: {updated}*"`. -/
def updatedLine (updated : List Char) : List Char :=
  chars "*Last updated: " ++ updated ++ chars "*"

/-- The replacement text `f"*Last reflected: {reflected}*"`. -/
def reflectedLine (reflected : List Char) : List Char :=
  chars "*Last reflected: " ++ reflected ++ chars "*"

/-- The `_stamp_timestamps` function. -/
def stampTimestamps (reflections updated reflected : List Char) : List Char :=
  let uLine := updatedLine updated
  let rLine := reflectedLine reflected
  let lines := splitLines reflections
  let hasU := lines.any isLastUpdatedLine
  let hasR := lines.any isLastReflectedLine
  let lines1 := if hasU then replaceFirstLine isLastUpdatedLine [uLine] lines else lines
  let lines2 := if hasR then replaceFirstLine isLastReflectedLine [rLine] lines1 else lines1
  let lines3 :=
    if !hasR then
      if hasU || lines2.any isLastUpdatedLine then
        replaceFirstLine isLastUpdatedLine [uLine, rLine] lines2
      else
        match lines2 with
        | [] => lines2
        | firstLn :: rest =>
          if firstLn.head? == some '#' && !rest.isEmpty then
            firstLn :: [] :: uLine :: rLine :: rest
          else firstLn :: rest
    else lines2
  joinLines lines3

/-- The `_trim_old_observations` rewrite of the observations text, given the
cutoff date string `(now - retention_days).strftime("%Y-%m-%d")`. -/
def trimOldObservations (cutoff content : List Char) : List Char :=
  let kept := (splitElems content).filter (fun sec =>
    match sectionDate? sec with
    | some d => leChars cutoff d
    | none => true)
  rstrip (kept.foldr (· ++ ·) []) ++ ['\n']

/-! ## The Reflector run (`run_reflector`) -/

/-- The compression oracle `llm.compress`: system prompt and user content to
output text; an `.error` result models the provider raising an exception. -/
def Oracle (ε : Type) : Type :=
  List Char → List Char → Except ε (List Char)

/-- One oracle invocation, recorded as (system prompt, user content). -/
structure Call where
  sys : List Char
  user : List Char
deriving DecidableEq

/-- The persisted files the pipeline reads and writes (`none` = absent). -/
structure MemState where
  observations : Option (List Char)
  reflections : Option (List Char)
  cursor : Option (List Char)
deriving DecidableEq

/-- `path.read_text()` with the absent-file-is-empty convention. -/
def readFile : Option (List Char) → List Char
  | none => []
  | some t => t

/-- Python `sep.flatten(items)`. -/
def joinSep (sep : List Char) : List (List Char) → List Char
  | [] => []
  | [x] => x
  | x :: xs => x ++ sep ++ joinSep sep xs

/-- The user content built by `_reflect_single`. -/
def userContentSingle (reflections observations : List Char) : List Char :=
  chars "## Current reflections\n\n" ++ reflections ++
    chars "\n\n---\n\n## Current observations\n\n" ++ observations

/-- The `_reflect_single` function, recording its one oracle call. -/
def reflectSingle (oracle : Oracle ε) (sysPrompt reflections observations : List Char) :
    Except ε (List Char) × List Call :=
  (oracle sysPrompt (userContentSingle reflections observations),
   [⟨sysPrompt, userContentSingle reflections observations⟩])

/-- The intermediate-chunk note appended to the system prompt (the Python
template after `.format(i=..., total=...)`). -/
def chunkNote (i total : Nat) : List Char :=
  chars "\n\n**NOTE:** This is chunk " ++ chars (toString i) ++ chars " of " ++
    chars (toString total) ++
    chars ". More observations follow. Focus on integrating these observations into the reflections. Produce the complete updated reflections document."

/-- The chunked-fold user content for chunk `i` of `total`. -/
def userContentChunk (running : List Char) (i total : Nat) (chunk : List Char) :
    List Char :=
  chars "## Current reflections\n\n" ++ running ++
    chars "\n\n---\n\n## Observations (chunk " ++ chars (toString i) ++ chars "/" ++
    chars (toString total) ++ chars ")\n\n" ++ chunk

/-- The fold loop of `_reflect_chunked`: each chunk's oracle output becomes
the running reflections for the next chunk; a failing call's exception
propagates. -/
def foldChunks (oracle : Oracle ε) (sysPrompt : List Char) (total : Nat) :
    List (List Char) → Nat → List Char → List Call →
    Except ε (List Char) × List Call
  | [], _, running, calls => (.ok running, calls)
  | c :: cs, i, running, calls =>
    let foldPrompt := if i = total then sysPrompt else sysPrompt ++ chunkNote i total
    let user := userContentChunk running i total c
    match oracle foldPrompt user with
    | .error e => (.error e, calls ++ [⟨foldPrompt, user⟩])
    | .ok t => foldChunks oracle sysPrompt total cs (i + 1) t (calls ++ [⟨foldPrompt, user⟩])

/-- The `_reflect_chunked` function. -/
def reflectChunked (oracle : Oracle ε) (sysPrompt reflections observations : List Char) :
    Except ε (List Char) × List Call :=
  foldChunks oracle sysPrompt (chunkObservations observations).length
    (chunkObservations observations) 1 reflections []

/-- The single-pass bound: `total_chars / 3.5 <= 30000` in Python float
arithmetic holds exactly when `total_chars ≤ 105000`. -/
def maxSingleChars : Nat := 105000

instance {ε α : Type} [DecidableEq ε] [DecidableEq α] : DecidableEq (Except ε α) :=
  fun a b =>
    match a, b with
    | .error e, .error f => decidable_of_iff (e = f) (by simp)
    | .error _, .ok _ => isFalse (fun h => Except.noConfusion h)
    | .ok _, .error _ => isFalse (fun h => Except.noConfusion h)
    | .ok a, .ok b => decidable_of_iff (a = b) (by simp)

/-- The outcome of one pipeline entry point: the Python return value (or the
propagated oracle exception), the resulting file state, and the oracle calls
issued, in order. -/
structure RunResult (ε : Type) where
  ret : Except ε (Option (List Char))
  state : MemState
  calls : List Call
deriving DecidableEq

/-- The `run_reflector` function.  `sysPrompt` is the loaded reflector prompt,
`now` the formatted `datetime.now(timezone.utc)` string, and `cutoff` the
retention cutoff date string used by `_trim_old_observations`.  The
best-effort `_reindex_if_enabled` never touches the three files (its failures
are swallowed) and is omitted. -/
def runReflector (oracle : Oracle ε) (sysPrompt now cutoff : List Char)
    (dryRun : Bool) (st : MemState) : RunResult ε :=
  let rawObservations := readFile st.observations
  if isBlank rawObservations then ⟨.ok none, st, []⟩
  else
    let reflections := readFile st.reflections
    let lastReflectedDate := parseLastReflected reflections
    let observations := filterNewObservations rawObservations lastReflectedDate
    if isBlank observations then ⟨.ok none, st, []⟩
    else
      let totalInputChars := sysPrompt.length + reflections.length + observations.length
      let r :=
        if totalInputChars ≤ maxSingleChars then
          reflectSingle oracle sysPrompt reflections observations
        else
          reflectChunked oracle sysPrompt reflections observations
      match r with
      | (.error e, calls) => ⟨.error e, st, calls⟩
      | (.ok t, calls) =>
        let latestObsDate := extractLatestObservationDate rawObservations
        let result := stampTimestamps t now (latestObsDate.getD now)
        if dryRun then ⟨.ok (some result), st, calls⟩
        else
          let newObservations :=
            match st.observations with
            | none => none
            | some content => some (trimOldObservations cutoff content)
          ⟨.ok (some result), ⟨newObservations, some (rstrip result ++ ['\n']), st.cursor⟩, calls⟩

/-! ## The Observer (`observe.py`) -/

/-- A normalized transcript message (`transcripts.Message`). -/
structure Message where
  role : List Char
  content : List Char
  timestamp : List Char
  source : List Char
deriving DecidableEq

/-- The `_format_messages` function. -/
def formatMessages (messages : List Message) : List Char :=
  joinSep (chars "\n\n") (messages.map fun m =>
    let ts := if m.timestamp.isEmpty then chars "??:??" else m.timestamp.take 19
    let roleTag := if m.role = chars "user" then chars "USER" else chars "ASSISTANT"
    let sourceTag := if m.source.isEmpty then [] else chars "[" ++ m.source ++ chars "]"
    chars "[" ++ ts ++ chars "] " ++ roleTag ++ chars " " ++ sourceTag ++ chars ": " ++
      m.content)

/-- The `_write_observations` function: full rewrite when the oracle output
contains today's date header and the file was nonblank, append otherwise. -/
def writeObservations (newObservations today : List Char)
    (existing? : Option (List Char)) : List Char :=
  match existing? with
  | some existing =>
    if !(isBlank existing) && decide ((chars "## " ++ today) <:+: newObservations) then
      rstrip newObservations ++ ['\n']
    else
      rstrip existing ++ chars "\n\n" ++ rstrip newObservations ++ ['\n']
  | none => rstrip newObservations ++ ['\n']

/-- The `run_observer` function (`today` is the formatted current UTC date). -/
def runObserver (oracle : Oracle ε) (sysPrompt : List Char) (minMessages : Nat)
    (messages : List Message) (today : List Char) (dryRun : Bool) (st : MemState) :
    RunResult ε :=
  if messages.length < minMessages then ⟨.ok none, st, []⟩
  else
    let transcriptText := formatMessages messages
    let existingObservations := readFile st.observations
    let userContent := chars "## Existing observations\n\n" ++ existingObservations ++
      chars "\n\n---\n\n## New transcript to process\n\n" ++ transcriptText
    match oracle sysPrompt userContent with
    | .error e => ⟨.error e, st, [⟨sysPrompt, userContent⟩]⟩
    | .ok result =>
      if dryRun then ⟨.ok (some result), st, [⟨sysPrompt, userContent⟩]⟩
      else
        ⟨.ok (some result),
         ⟨some (writeObservations result today st.observations), st.reflections, st.cursor⟩,
         [⟨sysPrompt, userContent⟩]⟩

/-! ## The cursor store (`config.py`) -/

/-- A cursor value: Claude transcripts store message UUID strings, Codex
sessions store integer message counts. -/
inductive CursorValue where
  | str (s : List Char)
  | int (n : Int)
deriving DecidableEq

/-- The cursor mapping, in Python `dict` insertion order. -/
abbrev Cursor : Type := List (List Char × CursorValue)

/-- Model of `json.loads` on one JSON string literal (no escape sequences,
which cursor keys and values do not contain). -/
def parseJsonString : List Char → Except Unit (List Char × List Char)
  | '"' :: rest =>
    let content := rest.takeWhile (fun c => c != '"')
    match rest.drop content.length with
    | '"' :: tail => .ok (content, tail)
    | _ => .error ()
  | _ => .error ()

/-- Decimal digits to a number. -/
def digitsToNat (ds : List Char) : Nat :=
  ds.foldl (fun a c => a * 10 + (c.toNat - 48)) 0

/-- Model of `json.loads` on one value of the kinds a cursor file contains. -/
def parseJsonValue (s : List Char) : Except Unit (CursorValue × List Char) :=
  match s with
  | '"' :: _ =>
    match parseJsonString s with
    | .ok (t, rest) => .ok (.str t, rest)
    | .error e => .error e
  | '-' :: rest =>
    let ds := rest.takeWhile Char.isDigit
    if ds.isEmpty then .error ()
    else .ok (.int (-(digitsToNat ds : Int)), rest.drop ds.length)
  | s =>
    let ds := s.takeWhile Char.isDigit
    if ds.isEmpty then .error ()
    else .ok (.int (digitsToNat ds), s.drop ds.length)

/-- JSON insignificant whitespace. -/
def skipJsonWs (s : List Char) : List Char :=
  s.dropWhile isPyWhite

/-- The comma-separated `"key": value` pairs of a JSON object (fuel-driven
recursion; the fuel is at least the remaining length). -/
def parseJsonPairs : Nat → List Char → Except Unit (Cursor × List Char)
  | 0, _ => .error ()
  | fuel + 1, s => do
    let (key, r1) ← parseJsonString s
    match skipJsonWs r1 with
    | ':' :: r3 => do
      let (v, r4) ← parseJsonValue (skipJsonWs r3)
      match skipJsonWs r4 with
      | ',' :: r6 => do
        let (rest, tail) ← parseJsonPairs fuel (skipJsonWs r6)
        .ok ((key, v) :: rest, tail)
      | '\x7d' :: r6 => .ok ([(key, v)], r6)
      | _ => .error ()
    | _ => .error ()

/-- Model of `json.loads` restricted to the flat objects `.cursor.json`
contains (string keys mapped to string or integer values); any other content
is a parse error, modelling a raised `json.JSONDecodeError`. -/
def jsonLoads (content : List Char) : Except Unit Cursor :=
  match skipJsonWs content with
  | '\x7b' :: rest =>
    match skipJsonWs rest with
    | '\x7d' :: tail => if (skipJsonWs tail).isEmpty then .ok [] else .error ()
    | r =>
      match parseJsonPairs (r.length + 1) r with
      | .ok (cur, tail) => if (skipJsonWs tail).isEmpty then .ok cur else .error ()
      | .error e => .error e
  | _ => .error ()

/-- `Config.load_cursor`: reads and parses the cursor file with no error
handling — corrupt content propagates the parse error; only an absent file
yields the empty mapping. -/
def loadCursor (cursorFile : Option (List Char)) : Except Unit Cursor :=
  match cursorFile with
  | some content => jsonLoads content
  | none => .ok []

/-- Model of `json.dumps(cursor, indent=2) + "\n"` written by `save_cursor`. -/
def dumpValue : CursorValue → List Char
  | .str s => '"' :: s ++ ['"']
  | .int n => chars (toString n)

/-- The serialized cursor file content. -/
def dumpCursor (cursor : Cursor) : List Char :=
  match cursor with
  | [] => chars "\x7b\x7d\n"
  | _ =>
    chars "\x7b\n" ++
      joinSep (chars ",\n") (cursor.map fun kv =>
        chars "  " ++ ('"' :: kv.1 ++ ['"']) ++ chars ": " ++ dumpValue kv.2) ++
      chars "\n\x7d\n"

/-- Python `cursor[key] = value` on the insertion-ordered mapping. -/
def cursorSet (cursor : Cursor) (key : List Char) (v : CursorValue) : Cursor :=
  if cursor.any (fun kv => kv.1 == key) then
    cursor.map (fun kv => if kv.1 == key then (key, v) else kv)
  else cursor ++ [(key, v)]

/-- Error source of an Observer entry point: a corrupt cursor file or an
oracle failure. -/
inductive ObserveError (ε : Type) where
  | cursorCorrupt
  | oracle (e : ε)
deriving DecidableEq

/-- The outcome of `observe_claude_transcript`. -/
structure ObserveResult (ε : Type) where
  ret : Except (ObserveError ε) (Option (List Char))
  state : MemState
  calls : List Call
deriving DecidableEq

/-- The `observe_claude_transcript` function.  `messages` is the external
`parse_transcript(transcript_path, after_uuid=...)` result for the cursor
position stored under `cursorKey`, and `lastUuid?` the last user/assistant
UUID found in the transcript file. -/
def observeClaudeTranscript (oracle : Oracle ε) (sysPrompt : List Char)
    (minMessages : Nat) (messages : List Message) (lastUuid? : Option (List Char))
    (cursorKey today : List Char) (dryRun : Bool) (st : MemState) : ObserveResult ε :=
  match loadCursor st.cursor with
  | .error _ => ⟨.error .cursorCorrupt, st, []⟩
  | .ok cursor =>
    if messages.isEmpty then ⟨.ok none, st, []⟩
    else
      match runObserver oracle sysPrompt minMessages messages today dryRun st with
      | ⟨.error e, st', calls⟩ => ⟨.error (.oracle e), st', calls⟩
      | ⟨.ok result?, st', calls⟩ =>
        match result?, dryRun with
        | some result, false =>
          if result.isEmpty then ⟨.ok (some result), st', calls⟩
          else
            match lastUuid? with
            | some uuid =>
              ⟨.ok (some result),
               ⟨st'.observations, st'.reflections,
                some (dumpCursor (cursorSet cursor cursorKey (.str uuid)))⟩, calls⟩
            | none => ⟨.ok (some result), st', calls⟩
        | _, _ => ⟨.ok result?, st', calls⟩

/-! ## Filtering lemmas -/

/-- The keep-predicate realized by the filtering loop: a dated element whose
date is `>= since_date`. -/
def keepSince (sinceDate sec : List Char) : Bool :=
  match sectionDate? sec with
  | some d => leChars sinceDate d
  | none => false

theorem foldl_filterStep_dated (sinceDate : List Char) :
    ∀ (secs : List (List Char)) (h : List Char) (acc : List (List Char)),
      (∀ sec ∈ secs, headerStart sec = true) →
      secs.foldl (filterStep sinceDate) (h, acc) =
        (h, acc ++ secs.filter (keepSince sinceDate)) := by
  intro secs
  induction secs with
  | nil => intro h acc _; simp
  | cons sec secs ih =>
    intro h acc hall
    have hsec := hall sec (List.mem_cons_self _ _)
    obtain ⟨heq, hsome⟩ := headerStart_sectionDate hsec
    obtain ⟨d, hd⟩ := Option.isSome_iff_exists.mp hsome
    have hsd : sectionDate? sec = some d := heq ▸ hd
    show List.foldl _ (filterStep sinceDate (h, acc) sec) secs = _
    rw [show filterStep sinceDate (h, acc) sec =
        (h, if leChars sinceDate d then acc ++ [sec] else acc) from by
      unfold filterStep; rw [hsd]]
    by_cases hk : leChars sinceDate d = true
    · rw [if_pos hk, ih _ _ (fun x hx => hall x (List.mem_cons_of_mem _ hx))]
      have hkeep : keepSince sinceDate sec = true := by
        unfold keepSince; rw [hsd]; exact hk
      simp [List.filter_cons, hkeep]
    · rw [if_neg hk, ih _ _ (fun x hx => hall x (List.mem_cons_of_mem _ hx))]
      have hkeep : keepSince sinceDate sec = false := by
        unfold keepSince; rw [hsd]; simpa using hk
      simp [List.filter_cons, hkeep]

/-- Characterization of `_filter_new_observations` for documents whose header
content does not itself begin, after stripping, with a date-header shape. -/
theorem filterNewObservations_eq (observations sinceDate : List Char)
    (hsane : sectionDate? (splitSections observations).1 = none) :
    filterNewObservations observations (some sinceDate) =
      (if ((splitSections observations).2.filter (keepSince sinceDate)).isEmpty then []
       else (splitSections observations).1 ++
         ((splitSections observations).2.filter (keepSince sinceDate)).foldr (· ++ ·) []) := by
  simp only [filterNewObservations, splitElems, List.foldl_cons]
  rw [show filterStep sinceDate ([], []) (splitSections observations).1 =
      ((splitSections observations).1, []) from by
    unfold filterStep; rw [hsane]]
  rw [foldl_filterStep_dated _ _ _ _ (fun sec hs => mem_splitSections_snd_headerStart hs)]
  simp

theorem foldl_filterStep_all_old (sinceDate : List Char) :
    ∀ (elems : List (List Char)) (h : List Char),
      (∀ sec ∈ elems, ∀ d, sectionDate? sec = some d → ltChars d sinceDate = true) →
      (elems.foldl (filterStep sinceDate) (h, [])).2 = [] := by
  intro elems
  induction elems with
  | nil => intro h _; simp
  | cons sec elems ih =>
    intro h hall
    show (List.foldl _ (filterStep sinceDate (h, []) sec) elems).2 = []
    cases hsd : sectionDate? sec with
    | none =>
      rw [show filterStep sinceDate (h, []) sec = (sec, []) from by
        unfold filterStep; rw [hsd]]
      exact ih _ (fun x hx d hd => hall x (List.mem_cons_of_mem _ hx) d hd)
    | some d =>
      have hlt := hall sec (List.mem_cons_self _ _) d hsd
      have hkeep : leChars sinceDate d = false := by simp [leChars, hlt]
      rw [show filterStep sinceDate (h, []) sec = (h, []) from by
        unfold filterStep; rw [hsd]; simp [hkeep]]
      exact ih _ (fun x hx d hd => hall x (List.mem_cons_of_mem _ hx) d hd)

/-- When every (strip-classified) dated element is strictly older than the
boundary, filtering returns the empty text. -/
theorem filterNewObservations_all_old (observations sinceDate : List Char)
    (hall : ∀ sec ∈ splitElems observations, ∀ d, sectionDate? sec = some d →
      ltChars d sinceDate = true) :
    filterNewObservations observations (some sinceDate) = [] := by
  have h2 := foldl_filterStep_all_old sinceDate (splitElems observations) [] hall
  simp only [filterNewObservations]
  rw [h2]
  simp

/-! ## Claim C1: idempotence of the reflection boundary -/

/-- Oracle used by the C1 counterexample: always returns the same reflections
document. -/
def c1oracle : Oracle Unit :=
  fun _ _ => .ok (chars "# Reflections\n\n## Core\n- fact\n")

/-- Initial state of the C1 counterexample: one observation section dated
2026-02-10 and no reflections file. -/
def c1st0 : MemState :=
  ⟨some (chars "# Observations\n\n## 2026-02-10\n\n- x\n"), none, none⟩

/-- First (successful, non-dry-run) Reflector run of the C1 counterexample. -/
def c1run1 : RunResult Unit :=
  runReflector c1oracle (chars "S") (chars "2026-02-11 00:00 UTC")
    (chars "2020-01-01") false c1st0

/-- Second Reflector run, on the state the first run wrote, with the
observations unchanged. -/
def c1run2 : RunResult Unit :=
  runReflector c1oracle (chars "S") (chars "2026-02-12 00:05 UTC")
    (chars "2020-01-01") false c1run1.state

/-- Claim C1 is false as stated: after a successful run whose resulting
"Last reflected" date is 2026-02-10, with no Date Section added at all
(the observations file is byte-identical), the second run does **not**
return the nothing-to-do sentinel — the inclusive `>=` filter re-sends the
boundary-date section, so the second run invokes the oracle once. -/
theorem claim_C1_counterexample :
    parseLastReflected (readFile c1run1.state.reflections) = some (chars "2026-02-10") ∧
    c1run1.ret = .ok (some (stampTimestamps (chars "# Reflections\n\n## Core\n- fact\n")
      (chars "2026-02-11 00:00 UTC") (chars "2026-02-10"))) ∧
    c1run1.state.observations = c1st0.observations ∧
    c1run2.ret ≠ .ok none ∧
    c1run2.calls.length = 1 := by
  decide

/-- Claim C1, amended: the second run returns the nothing-to-do sentinel
(`None`) with zero oracle calls when no Date Section with date greater than
**or equal to** the first run's resulting "Last reflected" date remains —
the boundary date itself is deliberately re-sent, so idempotence requires
every section to be strictly older than the parsed high-water mark. -/
theorem claim_C1_amended {ε : Type} (oracle : Oracle ε)
    (sysPrompt now cutoff D : List Char) (dryRun : Bool) (st : MemState)
    (hparse : parseLastReflected (readFile st.reflections) = some D)
    (hold : ∀ sec ∈ splitElems (readFile st.observations), ∀ d,
      sectionDate? sec = some d → ltChars d D = true) :
    runReflector oracle sysPrompt now cutoff dryRun st = ⟨.ok none, st, []⟩ := by
  simp only [runReflector]
  by_cases hb : isBlank (readFile st.observations) = true
  · rw [if_pos hb]
  · rw [if_neg hb, hparse, filterNewObservations_all_old _ _ hold]
    rw [if_pos (by rfl)]

/-- Witness for the amended C1: a reflections file whose "Last reflected" is
2026-02-10 and an observations file whose only section is dated 2026-02-07. -/
def c1wst : MemState :=
  ⟨some (chars "# Observations\n\n## 2026-02-07\n\n- old\n"),
   some (chars "# Reflections\n\n*Last updated: 2026-02-10 09:00 UTC*\n*Last reflected: 2026-02-10*\n\n## Core\n- fact\n"),
   none⟩

theorem claim_C1_amended_witness :
    parseLastReflected (readFile c1wst.reflections) = some (chars "2026-02-10") ∧
    (∀ sec ∈ splitElems (readFile c1wst.observations), ∀ d,
      sectionDate? sec = some d → ltChars d (chars "2026-02-10") = true) ∧
    runReflector c1oracle (chars "S") (chars "2026-02-11 00:00 UTC")
      (chars "2020-01-01") false c1wst = ⟨.ok none, c1wst, []⟩ :=
  ⟨by decide, by decide,
   claim_C1_amended c1oracle (chars "S") (chars "2026-02-11 00:00 UTC")
     (chars "2020-01-01") (chars "2026-02-10") false c1wst (by decide) (by decide)⟩

/-! ## Claim C2: inclusive boundary retention -/

/-- Claim C2: for a document whose header content is not date-shaped, the
filtering step keeps exactly the Date Sections whose date is `>=` the
last-reflected date, in order, preceded by the document header (and returns
the empty text when no section qualifies); each retained section's
keep-decision is exactly the comparison of its captured date. -/
theorem claim_C2_inclusive_boundary (observations sinceDate : List Char)
    (hsane : sectionDate? (splitSections observations).1 = none) :
    filterNewObservations observations (some sinceDate) =
      (if ((splitSections observations).2.filter (keepSince sinceDate)).isEmpty then []
       else (splitSections observations).1 ++
         ((splitSections observations).2.filter (keepSince sinceDate)).foldr (· ++ ·) []) ∧
    ∀ sec ∈ (splitSections observations).2, ∃ d,
      headerDate? sec = some d ∧ keepSince sinceDate sec = leChars sinceDate d := by
  refine ⟨filterNewObservations_eq observations sinceDate hsane, ?_⟩
  intro sec hs
  have hstart := mem_splitSections_snd_headerStart hs
  obtain ⟨heq, hsome⟩ := headerStart_sectionDate hstart
  obtain ⟨d, hd⟩ := Option.isSome_iff_exists.mp hsome
  refine ⟨d, hd, ?_⟩
  unfold keepSince
  rw [heq, hd]

/-- The spec's example document for C2: sections dated 02-07 … 02-10. -/
def c2obs : List Char :=
  chars "# Observations\n\n## 2026-02-07\n\n- a\n\n## 2026-02-08\n\n- b\n\n## 2026-02-09\n\n- c\n\n## 2026-02-10\n\n- d\n"

theorem claim_C2_witness :
    sectionDate? (splitSections c2obs).1 = none ∧
    (filterNewObservations c2obs (some (chars "2026-02-09")) =
      (if ((splitSections c2obs).2.filter (keepSince (chars "2026-02-09"))).isEmpty then []
       else (splitSections c2obs).1 ++
         ((splitSections c2obs).2.filter (keepSince (chars "2026-02-09"))).foldr (· ++ ·) [])) ∧
    filterNewObservations c2obs (some (chars "2026-02-09")) =
      chars "# Observations\n\n## 2026-02-09\n\n- c\n\n## 2026-02-10\n\n- d\n" :=
  ⟨by decide, (claim_C2_inclusive_boundary c2obs _ (by decide)).1, by decide⟩

/-! ## Stamping lemmas -/

theorem isPrefixOf_append_self (p t : List Char) : p.isPrefixOf (p ++ t) = true :=
  List.isPrefixOf_iff_prefix.mpr ⟨t, rfl⟩

theorem take_of_isPrefixOf {p l : List Char} (h : p.isPrefixOf l = true) :
    l.take p.length = p :=
  (List.prefix_iff_eq_take.mp (List.isPrefixOf_iff_prefix.mp h)).symm

/-- The stamped `*Last updated: …*` line always matches `_LAST_UPDATED_RE`. -/
theorem isLastUpdatedLine_updatedLine (u : List Char) :
    isLastUpdatedLine (updatedLine u) = true := by
  have h1 : (chars "*Last updated:").isPrefixOf (updatedLine u) = true := by
    have hsp : chars "*Last updated: " = chars "*Last updated:" ++ [' '] := by decide
    have he : updatedLine u = chars "*Last updated:" ++ ([' '] ++ (u ++ chars "*")) := by
      unfold updatedLine
      rw [hsp]
      simp
    rw [he]
    exact isPrefixOf_append_self _ _
  have h2 : 15 ≤ (updatedLine u).length := by
    simp [updatedLine, chars]
  have h3 : (updatedLine u).getLast? = some '*' := by
    have hstar : chars "*" = ['*'] := by decide
    unfold updatedLine
    rw [hstar]
    exact List.getLast?_concat _
  unfold isLastUpdatedLine
  rw [h1, h3]
  simp [h2]

/-- A line cannot match both timestamp regexes. -/
theorem not_both_meta {l : List Char} (hu : isLastUpdatedLine l = true) :
    isLastReflectedLine l = false := by
  cases hr : isLastReflectedLine l with
  | false => rfl
  | true =>
    exfalso
    have hpu : (chars "*Last updated:").isPrefixOf l = true := by
      unfold isLastUpdatedLine at hu
      simp only [Bool.and_eq_true] at hu
      exact hu.1.1
    have hpr : (chars "*Last reflected:").isPrefixOf l = true := by
      unfold isLastReflectedLine lastReflectedDate? at hr
      by_cases hp : (chars "*Last reflected:").isPrefixOf l = true
      · exact hp
      · rw [if_neg (by simpa using hp)] at hr
        simp at hr
    have ht14 : l.take 14 = chars "*Last updated:" := take_of_isPrefixOf hpu
    have ht16 : l.take 16 = chars "*Last reflected:" := take_of_isPrefixOf hpr
    have : l.take 14 = (l.take 16).take 14 := by
      rw [List.take_take]
      norm_num
    rw [ht14, ht16] at this
    exact absurd this (by decide)

/-- A metadata line of `_stamp_timestamps`: a match of either timestamp
regex. -/
def isMetaLine (l : List Char) : Bool :=
  isLastUpdatedLine l || isLastReflectedLine l

theorem replaceFirstLine_decomp {p : List Char → Bool} {new : List (List Char)}
    {α : List (List Char)} {l : List Char} (β : List (List Char))
    (hα : α.any p = false) (hl : p l = true) :
    replaceFirstLine p new (α ++ l :: β) = α ++ new ++ β := by
  induction α with
  | nil => simp [replaceFirstLine, hl]
  | cons a α ih =>
    simp only [List.any_cons, Bool.or_eq_false_iff] at hα
    simp only [List.cons_append, replaceFirstLine]
    rw [if_neg (by simp [hα.1])]
    show a :: replaceFirstLine p new (α ++ l :: β) = _
    rw [ih hα.2]

theorem mem_replaceFirstLine {p : List Char → Bool} {new L : List (List Char)}
    {x : List Char} (h : x ∈ replaceFirstLine p new L) : x ∈ L ∨ x ∈ new := by
  induction L with
  | nil => simp [replaceFirstLine] at h
  | cons l ls ih =>
    simp only [replaceFirstLine] at h
    by_cases hl : p l = true
    · rw [if_pos hl] at h
      rcases List.mem_append.mp h with h | h
      · exact Or.inr h
      · exact Or.inl (List.mem_cons_of_mem _ h)
    · rw [if_neg hl] at h
      rcases List.mem_cons.mp h with h | h
      · subst h
        exact Or.inl (List.mem_cons_self _ _)
      · rcases ih h with h | h
        · exact Or.inl (List.mem_cons_of_mem _ h)
        · exact Or.inr h

theorem replaceFirstLine_ne_nil {p : List Char → Bool} {new L : List (List Char)}
    (hnew : new ≠ []) (hL : L ≠ []) : replaceFirstLine p new L ≠ [] := by
  cases L with
  | nil => exact absurd rfl hL
  | cons l ls =>
    simp only [replaceFirstLine]
    by_cases hl : p l = true
    · rw [if_pos hl]
      intro hc
      exact hnew (List.append_eq_nil.mp hc).1
    · rw [if_neg hl]
      simp

/-- Replacing lines that the filter discards, by lines that the filter
discards, does not change the filtered list. -/
theorem filter_replaceFirstLine {p : List Char → Bool} {new : List (List Char)}
    (q : List Char → Bool) (hp : ∀ l, p l = true → q l = false)
    (hnew : ∀ n ∈ new, q n = false) :
    ∀ L : List (List Char), (replaceFirstLine p new L).filter q = L.filter q := by
  intro L
  induction L with
  | nil => rfl
  | cons l ls ih =>
    simp only [replaceFirstLine]
    by_cases hl : p l = true
    · rw [if_pos hl, List.filter_append]
      have h1 : new.filter q = [] := List.filter_eq_nil_iff.mpr (fun n hn => by simp [hnew n hn])
      rw [h1, List.nil_append, List.filter_cons, if_neg (by simp [hp l hl])]
    · rw [if_neg hl, List.filter_cons, List.filter_cons, ih]

/-- Shape of `_stamp_timestamps` when both metadata lines are present: each is
replaced in place (first occurrence), nothing is inserted. -/
theorem stampTimestamps_both (doc u r : List Char)
    (hu : (splitLines doc).any isLastUpdatedLine = true)
    (hr : (splitLines doc).any isLastReflectedLine = true) :
    stampTimestamps doc u r = joinLines (replaceFirstLine isLastReflectedLine
      [reflectedLine r] (replaceFirstLine isLastUpdatedLine [updatedLine u]
        (splitLines doc))) := by
  simp [stampTimestamps, hu, hr]

/-- Shape of `_stamp_timestamps` when only "Last updated" is present: that
line is replaced and the "Last reflected" line is inserted directly after
it. -/
theorem stampTimestamps_upd_only (doc u r : List Char) {α : List (List Char)}
    {l : List Char} (β : List (List Char)) (hsplit : splitLines doc = α ++ l :: β)
    (hα : α.any isLastUpdatedLine = false) (hl : isLastUpdatedLine l = true)
    (hr : (splitLines doc).any isLastReflectedLine = false) :
    stampTimestamps doc u r =
      joinLines (α ++ [updatedLine u, reflectedLine r] ++ β) := by
  have hu : (splitLines doc).any isLastUpdatedLine = true := by
    rw [hsplit]
    simp [List.any_append, hl]
  simp only [stampTimestamps, hu, hr]
  simp only [Bool.false_eq_true, if_false, if_true, Bool.not_false, Bool.true_or]
  rw [hsplit, replaceFirstLine_decomp β hα hl,
    show α ++ [updatedLine u] ++ β = α ++ updatedLine u :: β by simp,
    replaceFirstLine_decomp β hα (isLastUpdatedLine_updatedLine u)]

/-- Shape of `_stamp_timestamps` when neither metadata line is present and the
document starts with a heading line followed by a newline: both lines are
inserted right after the heading line, preceded by one blank separator
line. -/
theorem stampTimestamps_insert (doc u r : List Char) {firstLn : List Char}
    (rest : List (List Char)) (hsplit : splitLines doc = firstLn :: rest)
    (hu : (splitLines doc).any isLastUpdatedLine = false)
    (hr : (splitLines doc).any isLastReflectedLine = false)
    (hhash : firstLn.head? = some '#') (hrest : rest ≠ []) :
    stampTimestamps doc u r =
      joinLines (firstLn :: [] :: updatedLine u :: reflectedLine r :: rest) := by
  have hu' : (firstLn :: rest).any isLastUpdatedLine = false := by
    rw [← hsplit]; exact hu
  have hr' : (firstLn :: rest).any isLastReflectedLine = false := by
    rw [← hsplit]; exact hr
  have hC : (firstLn.head? == some '#' && !rest.isEmpty) = true := by
    cases rest with
    | nil => exact absurd rfl hrest
    | cons a as => simp [hhash]
  simp [stampTimestamps, hsplit, hu', hr', hC]

/-- Shape of `_stamp_timestamps` when neither metadata line is present and the
title pattern does not match: the text is returned unchanged. -/
theorem stampTimestamps_id (doc u r : List Char)
    (hu : (splitLines doc).any isLastUpdatedLine = false)
    (hr : (splitLines doc).any isLastReflectedLine = false)
    (htitle : ∀ firstLn rest, splitLines doc = firstLn :: rest →
      ¬(firstLn.head? = some '#' ∧ rest ≠ [])) :
    stampTimestamps doc u r = doc := by
  simp only [stampTimestamps, hu, hr, Bool.false_eq_true, if_false,
    Bool.not_false, if_true, Bool.false_or]
  cases hsL : splitLines doc with
  | nil => exact absurd hsL (splitLines_ne_nil doc)
  | cons firstLn rest =>
    have hnot := htitle firstLn rest hsL
    have hC : (firstLn.head? == some '#' && !rest.isEmpty) = false := by
      cases hh : firstLn.head? == some '#' with
      | false => simp
      | true =>
        cases rest with
        | nil => simp
        | cons a as => exact absurd ⟨by simpa using hh, by simp⟩ hnot
    simp only [hC, Bool.false_eq_true, if_false]
    rw [← hsL]
    exact joinLines_splitLines doc

/-- Shape of `_stamp_timestamps` when "Last updated" is present but
"Last reflected" is not, without locating the line. -/
theorem stampTimestamps_upd_shape (doc u r : List Char)
    (hu : (splitLines doc).any isLastUpdatedLine = true)
    (hr : (splitLines doc).any isLastReflectedLine = false) :
    stampTimestamps doc u r = joinLines (replaceFirstLine isLastUpdatedLine
      [updatedLine u, reflectedLine r] (replaceFirstLine isLastUpdatedLine
        [updatedLine u] (splitLines doc))) := by
  simp [stampTimestamps, hu, hr]

/-- Shape of `_stamp_timestamps` when only "Last reflected" is present: that
line is replaced and no "Last updated" line is inserted. -/
theorem stampTimestamps_refl_shape (doc u r : List Char)
    (hu : (splitLines doc).any isLastUpdatedLine = false)
    (hr : (splitLines doc).any isLastReflectedLine = true) :
    stampTimestamps doc u r = joinLines (replaceFirstLine isLastReflectedLine
      [reflectedLine r] (splitLines doc)) := by
  simp [stampTimestamps, hu, hr]

theorem no_nl_updatedLine {u : List Char} (hnu : '\n' ∉ u) :
    '\n' ∉ updatedLine u := by
  unfold updatedLine
  intro h
  rcases List.mem_append.mp h with h | h
  · rcases List.mem_append.mp h with h | h
    · exact absurd h (by decide)
    · exact hnu h
  · exact absurd h (by decide)

theorem no_nl_reflectedLine {r : List Char} (hnr : '\n' ∉ r) :
    '\n' ∉ reflectedLine r := by
  unfold reflectedLine
  intro h
  rcases List.mem_append.mp h with h | h
  · rcases List.mem_append.mp h with h | h
    · exact absurd h (by decide)
    · exact hnr h
  · exact absurd h (by decide)

/-! ## Success shape of a Reflector run -/

theorem maxDate_of_ne_nil {ds : List (List Char)} (h : ds ≠ []) :
    ∃ m, maxDate ds = some m := by
  cases ds with
  | nil => exact absurd rfl h
  | cons a as => exact ⟨_, rfl⟩

/-- Every successful `run_reflector` result is the stamping step applied to
some oracle-derived text, with `now` as the "Last updated" argument and the
maximum date of the raw (unfiltered) observations — falling back to `now` —
as the "Last reflected" argument. -/
theorem runReflector_success_shape {ε : Type} (oracle : Oracle ε)
    (sysPrompt now cutoff : List Char) (dryRun : Bool) (st : MemState)
    (res : List Char)
    (hret : (runReflector oracle sysPrompt now cutoff dryRun st).ret = .ok (some res)) :
    (∃ t, res = stampTimestamps t now
      ((extractLatestObservationDate (readFile st.observations)).getD now)) ∧
    isBlank (readFile st.observations) = false ∧
    isBlank (filterNewObservations (readFile st.observations)
      (parseLastReflected (readFile st.reflections))) = false := by
  by_cases hb : isBlank (readFile st.observations) = true
  · exfalso
    simp [runReflector, hb] at hret
  · by_cases hf : isBlank (filterNewObservations (readFile st.observations)
        (parseLastReflected (readFile st.reflections))) = true
    · exfalso
      simp [runReflector, hb, hf] at hret
    · refine ⟨?_, by simpa using hb, by simpa using hf⟩
      simp only [runReflector] at hret
      rw [if_neg hb, if_neg hf] at hret
      split at hret
      · simp at hret
      · next t calls heq =>
        split at hret <;>
          · simp only [RunResult.ret] at hret
            exact ⟨t, (Option.some.inj (Except.ok.inj hret)).symm⟩

/-! ## Claim C3: stamping correctness -/

/-- Claim C3: (1) a successful Reflector run over observations that contain at
least one Date Section returns the oracle-derived text stamped with the
current UTC instant as "Last updated" and the maximum date among **all** Date
Sections of the raw, unfiltered observations document as "Last reflected";
(2) when only a "Last updated" line exists it is replaced and the
"Last reflected" line is inserted directly after it; (3) when both metadata
lines exist each is replaced in place (first occurrence); (4) when neither
exists, both are inserted immediately after the document's first heading line
(the inserted block `\n*Last updated…*\n*Last reflected…*\n` begins with a
blank separator line). -/
theorem claim_C3_stamping :
    (∀ (ε : Type) (oracle : Oracle ε) (sysPrompt now cutoff : List Char)
       (dryRun : Bool) (st : MemState) (res : List Char),
       (runReflector oracle sysPrompt now cutoff dryRun st).ret = .ok (some res) →
       headerDates (readFile st.observations) ≠ [] →
       ∃ t m, maxDate (headerDates (readFile st.observations)) = some m ∧
         res = stampTimestamps t now m) ∧
    (∀ (doc u r : List Char) (α : List (List Char)) (l : List Char)
       (β : List (List Char)), splitLines doc = α ++ l :: β →
       α.any isLastUpdatedLine = false → isLastUpdatedLine l = true →
       (splitLines doc).any isLastReflectedLine = false →
       stampTimestamps doc u r = joinLines (α ++ [updatedLine u, reflectedLine r] ++ β)) ∧
    (∀ doc u r : List Char, (splitLines doc).any isLastUpdatedLine = true →
       (splitLines doc).any isLastReflectedLine = true →
       stampTimestamps doc u r = joinLines (replaceFirstLine isLastReflectedLine
         [reflectedLine r] (replaceFirstLine isLastUpdatedLine [updatedLine u]
           (splitLines doc)))) ∧
    (∀ (doc u r firstLn : List Char) (rest : List (List Char)),
       splitLines doc = firstLn :: rest →
       (splitLines doc).any isLastUpdatedLine = false →
       (splitLines doc).any isLastReflectedLine = false →
       firstLn.head? = some '#' → rest ≠ [] →
       stampTimestamps doc u r =
         joinLines (firstLn :: [] :: updatedLine u :: reflectedLine r :: rest)) := by
  refine ⟨?_, ?_, ?_, ?_⟩
  · intro ε oracle sysPrompt now cutoff dryRun st res hret hne
    obtain ⟨⟨t, hres⟩, -, -⟩ :=
      runReflector_success_shape oracle sysPrompt now cutoff dryRun st res hret
    obtain ⟨m, hm⟩ := maxDate_of_ne_nil hne
    have h2 : extractLatestObservationDate (readFile st.observations) = some m := hm
    rw [h2] at hres
    exact ⟨t, m, hm, by simpa using hres⟩
  · intro doc u r α l β hsplit hα hl hr
    exact stampTimestamps_upd_only doc u r β hsplit hα hl hr
  · intro doc u r hu hr
    exact stampTimestamps_both doc u r hu hr
  · intro doc u r firstLn rest hsplit hu hr hhash hrest
    exact stampTimestamps_insert doc u r rest hsplit hu hr hhash hrest

/-- Concrete oracle output used by the C3/C5 witnesses. -/
def c3t : List Char :=
  chars "# Reflections\n\n*Last updated: old*\n\n## Core\n- fact\n"

/-- Oracle returning `c3t`. -/
def c3oracle : Oracle Unit :=
  fun _ _ => .ok c3t

/-- Observations state for the C3 witness. -/
def c3st : MemState :=
  ⟨some (chars "# Observations\n\n## 2026-02-07\n\n- a\n\n## 2026-02-10\n\n- b\n"), none, none⟩

theorem claim_C3_stamping_witness :
    ((runReflector c3oracle (chars "S") (chars "2026-02-11 01:00 UTC")
        (chars "2020-01-01") true c3st).ret =
      .ok (some (stampTimestamps c3t (chars "2026-02-11 01:00 UTC") (chars "2026-02-10"))) ∧
     headerDates (readFile c3st.observations) ≠ [] ∧
     (∃ t m, maxDate (headerDates (readFile c3st.observations)) = some m ∧
       stampTimestamps c3t (chars "2026-02-11 01:00 UTC") (chars "2026-02-10") =
         stampTimestamps t (chars "2026-02-11 01:00 UTC") m)) ∧
    (splitLines (chars "# T\n*Last updated: old*\nbody") =
        [chars "# T"] ++ chars "*Last updated: old*" :: [chars "body"] ∧
     stampTimestamps (chars "# T\n*Last updated: old*\nbody") (chars "NOW")
        (chars "2026-02-10") =
       joinLines ([chars "# T"] ++
         [updatedLine (chars "NOW"), reflectedLine (chars "2026-02-10")] ++ [chars "body"])) ∧
    (stampTimestamps (chars "# T\n*Last updated: o*\n*Last reflected: 2020-01-01*\nbody\n")
        (chars "NOW") (chars "2026-02-10") =
      joinLines (replaceFirstLine isLastReflectedLine [reflectedLine (chars "2026-02-10")]
        (replaceFirstLine isLastUpdatedLine [updatedLine (chars "NOW")]
          (splitLines (chars "# T\n*Last updated: o*\n*Last reflected: 2020-01-01*\nbody\n"))))) ∧
    (stampTimestamps (chars "# T\n## Core\n- x") (chars "NOW") (chars "2026-02-10") =
      joinLines (chars "# T" :: [] :: updatedLine (chars "NOW") ::
        reflectedLine (chars "2026-02-10") :: [chars "## Core", chars "- x"])) :=
  ⟨⟨by decide, by decide,
    claim_C3_stamping.1 Unit c3oracle (chars "S") (chars "2026-02-11 01:00 UTC")
      (chars "2020-01-01") true c3st _ (by decide) (by decide)⟩,
   ⟨by decide,
    claim_C3_stamping.2.1 (chars "# T\n*Last updated: old*\nbody") (chars "NOW")
      (chars "2026-02-10") [chars "# T"] (chars "*Last updated: old*") [chars "body"]
      (by decide) (by decide) (by decide) (by decide)⟩,
   claim_C3_stamping.2.2.1 (chars "# T\n*Last updated: o*\n*Last reflected: 2020-01-01*\nbody\n")
     (chars "NOW") (chars "2026-02-10") (by decide) (by decide),
   claim_C3_stamping.2.2.2 (chars "# T\n## Core\n- x") (chars "NOW") (chars "2026-02-10")
     (chars "# T") [chars "## Core", chars "- x"] (by decide) (by decide) (by decide)
     (by decide) (by decide)⟩

/-! ## Claim C4: stamping never loses content -/

/-- Claim C4 is false as stated: when neither metadata line exists, stamping
inserts, besides the two metadata lines, one additional blank separator line
after the heading, so the output is not byte-identical to the input outside
the two metadata lines. -/
theorem claim_C4_counterexample :
    (splitLines (stampTimestamps (chars "# T\n## Core Identity\n- Name: A")
        (chars "2026-02-10 14:00 UTC") (chars "2026-02-10"))).filter
      (fun l => !(isMetaLine l)) ≠
    (splitLines (chars "# T\n## Core Identity\n- Name: A")).filter
      (fun l => !(isMetaLine l)) := by
  decide

/-- Claim C4, amended: outside the two metadata lines, stamping is the
identity — whenever at least one metadata line exists, the non-metadata lines
of the output are exactly the non-metadata lines of the input, unchanged and
in order; when neither exists and the document starts with a heading line,
the output is the input with exactly one blank separator line and the two
metadata lines inserted after the heading; otherwise the text is returned
byte-identical. -/
theorem claim_C4_amended (doc u r : List Char) (hnu : '\n' ∉ u) (hnr : '\n' ∉ r)
    (hrfl : isLastReflectedLine (reflectedLine r) = true) :
    ((splitLines doc).any isLastUpdatedLine = true ∨
       (splitLines doc).any isLastReflectedLine = true →
     (splitLines (stampTimestamps doc u r)).filter (fun l => !(isMetaLine l)) =
       (splitLines doc).filter (fun l => !(isMetaLine l))) ∧
    (∀ (firstLn : List Char) (rest : List (List Char)),
       (splitLines doc).any isLastUpdatedLine = false →
       (splitLines doc).any isLastReflectedLine = false →
       splitLines doc = firstLn :: rest → firstLn.head? = some '#' → rest ≠ [] →
       splitLines (stampTimestamps doc u r) =
         firstLn :: [] :: updatedLine u :: reflectedLine r :: rest) ∧
    ((splitLines doc).any isLastUpdatedLine = false →
     (splitLines doc).any isLastReflectedLine = false →
     (∀ firstLn rest, splitLines doc = firstLn :: rest →
       ¬(firstLn.head? = some '#' ∧ rest ≠ [])) →
     stampTimestamps doc u r = doc) := by
  have hqU : ∀ l, isLastUpdatedLine l = true → (!(isMetaLine l)) = false := by
    intro l hl
    simp [isMetaLine, hl]
  have hqR : ∀ l, isLastReflectedLine l = true → (!(isMetaLine l)) = false := by
    intro l hl
    simp [isMetaLine, hl]
  have hmU : (!(isMetaLine (updatedLine u))) = false := by
    simp [isMetaLine, isLastUpdatedLine_updatedLine]
  have hmR : (!(isMetaLine (reflectedLine r))) = false := by
    simp [isMetaLine, hrfl]
  have hnl3 : ∀ (L' : List (List Char)),
      (∀ x ∈ L', x ∈ splitLines doc ∨ x ∈ ([updatedLine u, reflectedLine r] :
        List (List Char))) → ∀ x ∈ L', '\n' ∉ x := by
    intro L' hsub x hx
    rcases hsub x hx with h | h
    · exact splitLines_mem_no_nl h
    · rcases List.mem_cons.mp h with h | h
      · exact h ▸ no_nl_updatedLine hnu
      · rcases List.mem_cons.mp h with h | h
        · exact h ▸ no_nl_reflectedLine hnr
        · simp at h
  refine ⟨?_, ?_, ?_⟩
  · intro hor
    rcases Bool.eq_false_or_eq_true ((splitLines doc).any isLastUpdatedLine) with hu | hu <;>
      rcases Bool.eq_false_or_eq_true ((splitLines doc).any isLastReflectedLine) with hr | hr
    case _ =>
      -- both present
      rw [stampTimestamps_both doc u r hu hr]
      have hmem : ∀ x ∈ replaceFirstLine isLastReflectedLine [reflectedLine r]
          (replaceFirstLine isLastUpdatedLine [updatedLine u] (splitLines doc)),
          x ∈ splitLines doc ∨ x ∈ ([updatedLine u, reflectedLine r] : List (List Char)) := by
        intro x hx
        rcases mem_replaceFirstLine hx with h | h
        · rcases mem_replaceFirstLine h with h | h
          · exact Or.inl h
          · rcases List.mem_cons.mp h with h | h
            · exact Or.inr (by simp [h])
            · simp at h
        · rcases List.mem_cons.mp h with h | h
          · exact Or.inr (by simp [h])
          · simp at h
      rw [splitLines_joinLines (hnl3 _ hmem)
        (replaceFirstLine_ne_nil (by simp)
          (replaceFirstLine_ne_nil (by simp) (splitLines_ne_nil doc)))]
      rw [filter_replaceFirstLine _ hqR (fun n hn => by
        rcases List.mem_cons.mp hn with h | h
        · exact h ▸ hmR
        · simp at h)]
      exact filter_replaceFirstLine _ hqU (fun n hn => by
        rcases List.mem_cons.mp hn with h | h
        · exact h ▸ hmU
        · simp at h) _
    case _ =>
      -- only updated present
      rw [stampTimestamps_upd_shape doc u r hu hr]
      have hmem : ∀ x ∈ replaceFirstLine isLastUpdatedLine
          [updatedLine u, reflectedLine r] (replaceFirstLine isLastUpdatedLine
            [updatedLine u] (splitLines doc)),
          x ∈ splitLines doc ∨ x ∈ ([updatedLine u, reflectedLine r] : List (List Char)) := by
        intro x hx
        rcases mem_replaceFirstLine hx with h | h
        · rcases mem_replaceFirstLine h with h | h
          · exact Or.inl h
          · rcases List.mem_cons.mp h with h | h
            · exact Or.inr (by simp [h])
            · simp at h
        · exact Or.inr h
      rw [splitLines_joinLines (hnl3 _ hmem)
        (replaceFirstLine_ne_nil (by simp)
          (replaceFirstLine_ne_nil (by simp) (splitLines_ne_nil doc)))]
      rw [filter_replaceFirstLine _ hqU (fun n hn => by
        rcases List.mem_cons.mp hn with h | h
        · exact h ▸ hmU
        · rcases List.mem_cons.mp h with h | h
          · exact h ▸ hmR
          · simp at h)]
      exact filter_replaceFirstLine _ hqU (fun n hn => by
        rcases List.mem_cons.mp hn with h | h
        · exact h ▸ hmU
        · simp at h) _
    case _ =>
      -- only reflected present
      rw [stampTimestamps_refl_shape doc u r hu hr]
      have hmem : ∀ x ∈ replaceFirstLine isLastReflectedLine [reflectedLine r]
          (splitLines doc),
          x ∈ splitLines doc ∨ x ∈ ([updatedLine u, reflectedLine r] : List (List Char)) := by
        intro x hx
        rcases mem_replaceFirstLine hx with h | h
        · exact Or.inl h
        · rcases List.mem_cons.mp h with h | h
          · exact Or.inr (by simp [h])
          · simp at h
      rw [splitLines_joinLines (hnl3 _ hmem)
        (replaceFirstLine_ne_nil (by simp) (splitLines_ne_nil doc))]
      exact filter_replaceFirstLine _ hqR (fun n hn => by
        rcases List.mem_cons.mp hn with h | h
        · exact h ▸ hmR
        · simp at h) _
    case _ =>
      rcases hor with h | h
      · exact absurd h (by simp [hu])
      · exact absurd h (by simp [hr])
  · intro firstLn rest hu hr hsplit hhash hrest
    rw [stampTimestamps_insert doc u r rest hsplit hu hr hhash hrest]
    exact splitLines_joinLines
      (fun x hx => by
        rcases List.mem_cons.mp hx with h | h
        · subst h
          exact splitLines_mem_no_nl (hsplit ▸ List.mem_cons_self _ _)
        · rcases List.mem_cons.mp h with h | h
          · subst h; simp
          · rcases List.mem_cons.mp h with h | h
            · exact h ▸ no_nl_updatedLine hnu
            · rcases List.mem_cons.mp h with h | h
              · exact h ▸ no_nl_reflectedLine hnr
              · exact splitLines_mem_no_nl (hsplit ▸ List.mem_cons_of_mem _ h))
      (by simp)
  · intro hu hr htitle
    exact stampTimestamps_id doc u r hu hr htitle

theorem claim_C4_amended_witness :
    ('\n' ∉ chars "NOW") ∧ ('\n' ∉ chars "2026-02-10") ∧
    isLastReflectedLine (reflectedLine (chars "2026-02-10")) = true ∧
    (splitLines (stampTimestamps
        (chars "# T\n*Last updated: o*\n*Last reflected: 2020-01-01*\nbody\n")
        (chars "NOW") (chars "2026-02-10"))).filter (fun l => !(isMetaLine l)) =
      (splitLines (chars "# T\n*Last updated: o*\n*Last reflected: 2020-01-01*\nbody\n")).filter
        (fun l => !(isMetaLine l)) :=
  ⟨by decide, by decide, by decide,
   (claim_C4_amended (chars "# T\n*Last updated: o*\n*Last reflected: 2020-01-01*\nbody\n")
       (chars "NOW") (chars "2026-02-10") (by decide) (by decide) (by decide)).1
     (Or.inl (by decide))⟩

/-! ## Chunking lemmas -/

theorem foldr_append_concat (a b : List (List Char)) :
    (a ++ b).foldr (· ++ ·) [] = a.foldr (· ++ ·) [] ++ b.foldr (· ++ ·) [] := by
  induction a with
  | nil => simp
  | cons x xs ih => simp [ih]

theorem headerStart_not_blank {sec : List Char} (h : headerStart sec = true) :
    isBlank sec = false := by
  obtain ⟨rest, hp⟩ := headerStart_cons_hash h
  rw [hp]
  simp [isBlank, isPyWhite]

theorem isBlank_append (a b : List Char) :
    isBlank (a ++ b) = (isBlank a && isBlank b) := by
  simp [isBlank, List.all_append]

theorem foldl_chunkClassify_dated :
    ∀ (secs : List (List Char)) (h : List Char) (acc : List (List Char)),
      (∀ sec ∈ secs, headerStart sec = true) →
      secs.foldl chunkClassify (h, acc) = (h, acc ++ secs) := by
  intro secs
  induction secs with
  | nil => intro h acc _; simp
  | cons sec secs ih =>
    intro h acc hall
    have hsec := hall sec (List.mem_cons_self _ _)
    obtain ⟨heq, hsome⟩ := headerStart_sectionDate hsec
    show List.foldl _ (chunkClassify (h, acc) sec) secs = _
    rw [show chunkClassify (h, acc) sec = (h, acc ++ [sec]) from by
      unfold chunkClassify
      rw [if_pos (by rw [heq]; exact hsome)]]
    rw [ih _ _ (fun x hx => hall x (List.mem_cons_of_mem _ hx))]
    simp

/-- The chunk-accumulation loop always produces header-prefixed groups of
whole consecutive sections, partitioning its input. -/
theorem foldl_chunkStep_partition (header : List Char) :
    ∀ (secs : List (List Char)) (gs : List (List (List Char))) (g : List (List Char)),
      ∃ (gs' : List (List (List Char))) (g' : List (List Char)),
        secs.foldl (chunkStep header)
          (gs.map (fun x => header ++ x.foldr (· ++ ·) []),
           header ++ g.foldr (· ++ ·) []) =
          (gs'.map (fun x => header ++ x.foldr (· ++ ·) []),
           header ++ g'.foldr (· ++ ·) []) ∧
        gs'.flatten ++ g' = gs.flatten ++ g ++ secs ∧
        (g ≠ [] ∨ secs ≠ [] → g' ≠ []) := by
  intro secs
  induction secs with
  | nil =>
    intro gs g
    refine ⟨gs, g, rfl, by simp, ?_⟩
    rintro (h | h)
    · exact h
    · exact absurd rfl h
  | cons sec secs ih =>
    intro gs g
    show ∃ gs' g', List.foldl _ (chunkStep header _ sec) secs = _ ∧ _ ∧ _
    by_cases hc : (budgetChars < (header ++ g.foldr (· ++ ·) []).length + sec.length &&
        !(isBlank (header ++ g.foldr (· ++ ·) []))) = true
    · have hstep : chunkStep header
          (gs.map (fun x => header ++ x.foldr (· ++ ·) []),
           header ++ g.foldr (· ++ ·) []) sec =
          ((gs ++ [g]).map (fun x => header ++ x.foldr (· ++ ·) []),
           header ++ [sec].foldr (· ++ ·) []) := by
        unfold chunkStep
        rw [if_pos hc]
        simp
      rw [hstep]
      obtain ⟨gs', g', hfold, hjoin, hne⟩ := ih (gs ++ [g]) [sec]
      refine ⟨gs', g', hfold, ?_, fun _ => hne (Or.inl (by simp))⟩
      rw [hjoin]
      simp [List.append_assoc]
    · have hstep : chunkStep header
          (gs.map (fun x => header ++ x.foldr (· ++ ·) []),
           header ++ g.foldr (· ++ ·) []) sec =
          (gs.map (fun x => header ++ x.foldr (· ++ ·) []),
           header ++ (g ++ [sec]).foldr (· ++ ·) []) := by
        unfold chunkStep
        rw [if_neg (by simpa using hc)]
        rw [foldr_append_concat]
        simp
      rw [hstep]
      obtain ⟨gs', g', hfold, hjoin, hne⟩ := ih gs (g ++ [sec])
      refine ⟨gs', g', hfold, ?_, fun _ => hne (Or.inl (by simp))⟩
      rw [hjoin]
      simp [List.append_assoc]

/-! ## Claim C6: chunking never splits a section -/

/-- Claim C6: for a document with at least one Date Section (and a header
that is not itself date-shaped), the chunks are header-prefixed groups of
whole consecutive Date Sections whose concatenation — ignoring the repeated
header — is exactly the document's sequence of Date Sections; each section
therefore appears whole in exactly one chunk. -/
theorem claim_C6_chunk_partition (observations : List Char)
    (hsane : sectionDate? (splitSections observations).1 = none)
    (hne : (splitSections observations).2 ≠ []) :
    ∃ groups : List (List (List Char)),
      chunkObservations observations =
        groups.map (fun g => (splitSections observations).1 ++ g.foldr (· ++ ·) []) ∧
      groups.flatten = (splitSections observations).2 := by
  have hclass : (splitElems observations).foldl chunkClassify ([], []) =
      ((splitSections observations).1, (splitSections observations).2) := by
    unfold splitElems
    rw [List.foldl_cons,
      show chunkClassify ([], []) (splitSections observations).1 =
        ((splitSections observations).1, []) from by
        unfold chunkClassify
        rw [if_neg (by simp [hsane])],
      foldl_chunkClassify_dated _ _ _ (fun sec hs => mem_splitSections_snd_headerStart hs)]
    simp
  simp only [chunkObservations, hclass]
  rw [if_neg (by simpa using hne)]
  obtain ⟨gs', g', hfold, hjoin, hg'⟩ :=
    foldl_chunkStep_partition (splitSections observations).1
      (splitSections observations).2 [] []
  have hstart : ((([] : List (List (List Char))).map
      (fun x => (splitSections observations).1 ++ x.foldr (· ++ ·) [])),
      (splitSections observations).1 ++ ([] : List (List Char)).foldr (· ++ ·) []) =
      (([] : List (List Char)), (splitSections observations).1) := by
    simp
  rw [show (([] : List (List Char)), (splitSections observations).1) =
      ((([] : List (List (List Char))).map
        (fun x => (splitSections observations).1 ++ x.foldr (· ++ ·) [])),
       (splitSections observations).1 ++ ([] : List (List Char)).foldr (· ++ ·) [])
      from hstart.symm, hfold]
  have hg'ne : g' ≠ [] := hg' (Or.inr hne)
  have hjoin' : gs'.flatten ++ g' = (splitSections observations).2 := by
    simpa using hjoin
  have hg'sub : ∀ sec ∈ g', headerStart sec = true := by
    intro sec hs
    apply mem_splitSections_snd_headerStart (s := observations)
    rw [← hjoin']
    exact List.mem_append.mpr (Or.inr hs)
  have hblank : isBlank ((splitSections observations).1 ++ g'.foldr (· ++ ·) []) = false := by
    cases g' with
    | nil => exact absurd rfl hg'ne
    | cons s0 rest =>
      have h0 := headerStart_not_blank (hg'sub s0 (List.mem_cons_self _ _))
      rw [show (s0 :: rest).foldr (· ++ ·) [] = s0 ++ rest.foldr (· ++ ·) [] from rfl]
      rw [isBlank_append, isBlank_append, h0]
      simp
  rw [hblank]
  refine ⟨gs' ++ [g'], ?_, ?_⟩
  · rw [if_neg (by simp [List.map_append])]
    rw [if_pos (show (!false) = true from rfl)]
    simp [List.map_append]
  · rw [← hjoin']
    simp

/-- Small witness document: two Date Sections that fit in one chunk. -/
def c6obs : List Char :=
  chars "# Observations\n\n## 2026-02-09\n\n- a\n\n## 2026-02-10\n\n- b\n"

theorem claim_C6_chunk_partition_witness :
    sectionDate? (splitSections c6obs).1 = none ∧
    (splitSections c6obs).2 ≠ [] ∧
    (∃ groups : List (List (List Char)),
      chunkObservations c6obs =
        groups.map (fun g => (splitSections c6obs).1 ++ g.foldr (· ++ ·) []) ∧
      groups.flatten = (splitSections c6obs).2) :=
  ⟨by decide, by decide, claim_C6_chunk_partition c6obs (by decide) (by decide)⟩

/-! ## Claim C7: chunk composition and the oversized-section policy -/

theorem splitAux_no_nl_append {x : List Char} (r : List Char)
    (hx : ∀ c ∈ x, c ≠ '\n') :
    splitAux (x ++ r) = (x ++ (splitAux r).1, (splitAux r).2) := by
  induction x with
  | nil => simp
  | cons c cs ih =>
    have hc : c ≠ '\n' := hx c (List.mem_cons_self _ _)
    show splitAux (c :: (cs ++ r)) = _
    have hcond : (decide (c = '\n') && headerStart (cs ++ r)) = false := by
      simp [hc]
    simp only [splitAux, hcond, Bool.false_eq_true, if_false]
    rw [ih (fun a ha => hx a (List.mem_cons_of_mem _ ha))]
    rfl

theorem splitAux_nl_header {r : List Char} (hr : headerStart r = true) :
    splitAux ('\n' :: r) = (['\n'], (splitAux r).1 :: (splitAux r).2) := by
  simp [splitAux, hr]

theorem splitAux_nl_no_header {r : List Char} (hr : headerStart r = false) :
    splitAux ('\n' :: r) = ('\n' :: (splitAux r).1, (splitAux r).2) := by
  simp [splitAux, hr]

theorem splitAux_no_nl_self {x : List Char} (hx : ∀ c ∈ x, c ≠ '\n') :
    splitAux x = (x, []) := by
  have h := splitAux_no_nl_append [] hx
  simpa [splitAux] using h

/-- Flush case of the chunk-accumulation step. -/
theorem chunkStep_flush (header cur : List Char) (chunks : List (List Char))
    (sec : List Char) (h1 : budgetChars < cur.length + sec.length)
    (h2 : isBlank cur = false) :
    chunkStep header (chunks, cur) sec = (chunks ++ [cur], header ++ sec) := by
  unfold chunkStep
  rw [if_pos (by simp [h1, h2])]

/-- The oversized observations document of the C7 analysis: a fifteen-byte
header and a single 63014-byte Date Section, whose length alone exceeds the
63000-byte chunk budget. -/
def c7hdr : List Char :=
  chars "# Observations\n"

/-- The single oversized Date Section. -/
def c7sec : List Char :=
  chars "## 2026-02-10\n" ++ List.replicate 63000 'x'

/-- The full document. -/
def c7obs : List Char :=
  c7hdr ++ c7sec

theorem c7_no_nl_replicate : ∀ c ∈ List.replicate 63000 'x', c ≠ '\n' := by
  intro c hc
  rw [List.eq_of_mem_replicate hc]
  decide

theorem c7_headerStart_replicate :
    headerStart (List.replicate 63000 'x') = false := by
  unfold headerStart
  rw [List.take_replicate]
  rw [show min 13 63000 = 13 from by norm_num]
  decide

theorem c7_splitAux_sec : splitAux c7sec = (c7sec, []) := by
  have hy : ∀ c ∈ chars "## 2026-02-10", c ≠ '\n' := by decide
  have h1 : c7sec = chars "## 2026-02-10" ++ ('\n' :: List.replicate 63000 'x') := by
    unfold c7sec
    rw [show chars "## 2026-02-10\n" = chars "## 2026-02-10" ++ ['\n'] from by decide]
    rw [List.append_assoc]
    rfl
  rw [h1, splitAux_no_nl_append _ hy,
    splitAux_nl_no_header c7_headerStart_replicate,
    splitAux_no_nl_self c7_no_nl_replicate]

theorem c7_take13_sec : c7sec.take 13 = chars "## 2026-02-10" := by
  unfold c7sec
  rw [List.take_append_eq_append_take]
  rw [show (13 - (chars "## 2026-02-10\n").length) = 0 from by decide]
  rw [List.take_zero, List.append_nil]
  decide

theorem c7_headerStart_sec : headerStart c7sec = true := by
  unfold headerStart
  rw [c7_take13_sec]
  decide

theorem c7_splitSections : splitSections c7obs = (c7hdr, [c7sec]) := by
  have hx : ∀ c ∈ chars "# Observations", c ≠ '\n' := by decide
  have h1 : c7obs = chars "# Observations" ++ ('\n' :: c7sec) := by
    unfold c7obs c7hdr
    rw [show chars "# Observations\n" = chars "# Observations" ++ ['\n'] from by decide]
    rw [List.append_assoc]
    rfl
  have haux : splitAux c7obs = (c7hdr, [c7sec]) := by
    rw [h1, splitAux_no_nl_append _ hx, splitAux_nl_header c7_headerStart_sec,
      c7_splitAux_sec]
    rw [show (chars "# Observations" : List Char) ++ ['\n'] = c7hdr from by decide]
  have ht13 : c7obs.take 13 = (chars "# Observations\n").take 13 := by
    unfold c7obs c7hdr
    rw [List.take_append_eq_append_take]
    rw [show (13 - (chars "# Observations\n").length) = 0 from by decide]
    rw [List.take_zero, List.append_nil]
  have hns : headerStart c7obs = false := by
    unfold headerStart
    rw [ht13]
    decide
  unfold splitSections
  rw [if_neg (by simp [hns]), haux]

theorem c7_sectionDate_sec : sectionDate? c7sec = some (chars "2026-02-10") := by
  unfold sectionDate?
  have hdrop : c7sec.dropWhile isPyWhite = c7sec := by
    unfold c7sec
    rw [show chars "## 2026-02-10\n" ++ List.replicate 63000 'x' =
      '#' :: (chars "# 2026-02-10\n" ++ List.replicate 63000 'x') from rfl]
    rw [List.dropWhile_cons]
    rw [show isPyWhite '#' = false from by decide]
    rw [if_neg Bool.false_ne_true]
  rw [hdrop]
  unfold headerDate?
  rw [c7_take13_sec]
  rw [if_pos (by decide)]
  have hd : (c7sec.drop 3).take 10 = chars "2026-02-10" := by
    unfold c7sec
    rw [show chars "## 2026-02-10\n" ++ List.replicate 63000 'x' =
      chars "## " ++ ((chars "2026-02-10" ++ ['\n']) ++ List.replicate 63000 'x') from by
        rw [show chars "## 2026-02-10\n" =
          chars "## " ++ (chars "2026-02-10" ++ ['\n']) from by decide]
        rw [List.append_assoc]]
    rw [List.drop_append_eq_append_drop]
    rw [show (3 - (chars "## ").length) = 0 from by decide]
    rw [show (chars "## ").drop 3 = [] from by decide, List.drop_zero, List.nil_append]
    rw [List.append_assoc]
    rw [List.take_append_eq_append_take]
    rw [show (10 - (chars "2026-02-10").length) = 0 from by decide]
    rw [List.take_zero, List.append_nil]
    decide
  rw [hd]

theorem c7_sec_length : c7sec.length = 63014 := by
  unfold c7sec
  rw [List.length_append, List.length_replicate,
    show (chars "## 2026-02-10\n").length = 14 from by decide]

/-- Claim C7 marks a code bug: on a document whose single Date Section alone
exceeds the 63000-character budget, `_chunk_observations` emits a **leading
header-only chunk containing no Date Section at all** before the oversized
section's chunk — contradicting the function's own docstring ("Each chunk is
a string of one or more date sections"), the claim, and the spec.  The
oversized section itself is still emitted whole in one (the second) chunk. -/
theorem claim_C7_header_only_chunk :
    chunkObservations c7obs = [c7hdr, c7hdr ++ c7sec] ∧
    headerDates c7hdr = [] ∧
    sectionDate? c7hdr = none ∧
    budgetChars = 63000 ∧
    budgetChars < c7sec.length := by
  refine ⟨?_, by decide, by decide, rfl, by rw [c7_sec_length]; decide⟩
  have hclass : (splitElems c7obs).foldl chunkClassify ([], []) = (c7hdr, [c7sec]) := by
    unfold splitElems
    rw [c7_splitSections]
    show List.foldl chunkClassify ([], []) [c7hdr, c7sec] = _
    rw [show List.foldl chunkClassify ([], []) [c7hdr, c7sec] =
        chunkClassify (chunkClassify ([], []) c7hdr) c7sec from rfl]
    rw [show chunkClassify ([], []) c7hdr = (c7hdr, []) from by
      unfold chunkClassify
      rw [if_neg (by simp [show sectionDate? c7hdr = none from by decide])]]
    unfold chunkClassify
    rw [if_pos (by simp [c7_sectionDate_sec])]
    rfl
  simp only [chunkObservations, hclass]
  rw [if_neg (by simp)]
  have hstep := chunkStep_flush c7hdr c7hdr [] c7sec
    (by rw [c7_sec_length, show c7hdr.length = 15 from by decide]; decide)
    (by decide)
  have hstep2 : chunkStep c7hdr ([], c7hdr) c7sec = ([c7hdr], c7hdr ++ c7sec) := by
    rw [hstep]
    rfl
  rw [List.foldl_cons, List.foldl_nil, hstep2]
  rw [show (([c7hdr], c7hdr ++ c7sec) : List (List Char) × List Char).2 =
      c7hdr ++ c7sec from rfl,
    show (([c7hdr], c7hdr ++ c7sec) : List (List Char) × List Char).1 =
      [c7hdr] from rfl]
  have hb : (!(isBlank (c7hdr ++ c7sec))) = true := by
    rw [isBlank_append, show isBlank c7hdr = false from by decide]
    rfl
  rw [hb, if_pos rfl]
  rw [if_neg (by simp)]
  rfl

/-! ## Claim C5: monotonicity of the high-water mark -/

/-- Claim C5: whenever the reflections document parses to a last-reflected
date `D` (in particular, whenever a previous successful run stamped `D`) and
`run_reflector` completes successfully on header-sane observations, the
"Last reflected" date it stamps into the new reflections document is the
maximum observation date `m`, and `D ≤ m` — so across every sequence of
successful runs, each reading the reflections the previous run wrote, the
stamped dates are monotonically non-decreasing (by transitivity of the string
order). -/
theorem claim_C5_monotonic {ε : Type} (oracle : Oracle ε)
    (sysPrompt now cutoff D : List Char) (dryRun : Bool) (st : MemState)
    (res : List Char)
    (hD : parseLastReflected (readFile st.reflections) = some D)
    (hsane : sectionDate? (splitSections (readFile st.observations)).1 = none)
    (hret : (runReflector oracle sysPrompt now cutoff dryRun st).ret = .ok (some res)) :
    ∃ t m, extractLatestObservationDate (readFile st.observations) = some m ∧
      res = stampTimestamps t now m ∧ leChars D m = true := by
  obtain ⟨⟨t, hres⟩, hraw, hfil⟩ :=
    runReflector_success_shape oracle sysPrompt now cutoff dryRun st res hret
  rw [hD] at hfil
  rw [filterNewObservations_eq _ _ hsane] at hfil
  have hkept : ((splitSections (readFile st.observations)).2.filter (keepSince D)) ≠ [] := by
    intro hnil
    rw [hnil] at hfil
    simp [isBlank] at hfil
  have hne : ¬ ((splitSections (readFile st.observations)).2.filter (keepSince D)).isEmpty = true := by
    simpa using hkept
  obtain ⟨sec, hsec⟩ := List.exists_mem_of_ne_nil _ hkept
  obtain ⟨hsecmem, hkeep⟩ := List.mem_filter.mp hsec
  have hstart := mem_splitSections_snd_headerStart hsecmem
  obtain ⟨heq, hsome⟩ := headerStart_sectionDate hstart
  obtain ⟨d, hd⟩ := Option.isSome_iff_exists.mp hsome
  have hled : leChars D d = true := by
    unfold keepSince at hkeep
    rw [heq, hd] at hkeep
    exact hkeep
  have hdmem : d ∈ headerDates (readFile st.observations) :=
    mem_splitSections_dates hsecmem hd
  obtain ⟨m, hm⟩ := maxDate_of_ne_nil (List.ne_nil_of_mem hdmem)
  have hmm : extractLatestObservationDate (readFile st.observations) = some m := hm
  refine ⟨t, m, hmm, ?_, leChars_trans hled (le_maxDate hm hdmem)⟩
  rw [hmm] at hres
  simpa using hres

/-- Witness state for C5: last reflected 2026-02-09, sections 02-08/02-10. -/
def c5st : MemState :=
  ⟨some (chars "# Observations\n\n## 2026-02-08\n\n- a\n\n## 2026-02-10\n\n- b\n"),
   some (chars "# Reflections\n\n*Last updated: 2026-02-09 09:00 UTC*\n*Last reflected: 2026-02-09*\n\n## Core\n- fact\n"),
   none⟩

theorem claim_C5_monotonic_witness :
    parseLastReflected (readFile c5st.reflections) = some (chars "2026-02-09") ∧
    sectionDate? (splitSections (readFile c5st.observations)).1 = none ∧
    (runReflector c3oracle (chars "S") (chars "2026-02-11 02:00 UTC")
        (chars "2020-01-01") true c5st).ret =
      .ok (some (stampTimestamps c3t (chars "2026-02-11 02:00 UTC") (chars "2026-02-10"))) ∧
    (∃ t m, extractLatestObservationDate (readFile c5st.observations) = some m ∧
      stampTimestamps c3t (chars "2026-02-11 02:00 UTC") (chars "2026-02-10") =
        stampTimestamps t (chars "2026-02-11 02:00 UTC") m ∧
      leChars (chars "2026-02-09") m = true) :=
  ⟨by decide, by decide, by decide,
   claim_C5_monotonic c3oracle (chars "S") (chars "2026-02-11 02:00 UTC")
     (chars "2020-01-01") (chars "2026-02-09") true c5st _ (by decide) (by decide)
     (by decide)⟩

/-! ## Claim C10: observations with no date headers at all -/

/-- Claim C10: a non-blank observations document containing no
`## YYYY-MM-DD` line, with reflections carrying no parseable "Last reflected"
metadata, is still reflected — the oracle is invoked once on the full
observations text, and the stamping step receives the current UTC timestamp
string (not an observation date) as the "Last reflected" value. -/
theorem claim_C10_no_date_headers {ε : Type} (oracle : Oracle ε)
    (sysPrompt now cutoff : List Char) (dryRun : Bool) (st : MemState)
    (t : List Char)
    (hblank : isBlank (readFile st.observations) = false)
    (hnodates : headerDates (readFile st.observations) = [])
    (hparse : parseLastReflected (readFile st.reflections) = none)
    (hsize : sysPrompt.length + (readFile st.reflections).length +
      (readFile st.observations).length ≤ maxSingleChars)
    (horacle : oracle sysPrompt (userContentSingle (readFile st.reflections)
      (readFile st.observations)) = .ok t) :
    (runReflector oracle sysPrompt now cutoff dryRun st).ret =
      .ok (some (stampTimestamps t now now)) ∧
    (runReflector oracle sysPrompt now cutoff dryRun st).calls =
      [⟨sysPrompt, userContentSingle (readFile st.reflections)
        (readFile st.observations)⟩] := by
  have hfil : filterNewObservations (readFile st.observations)
      (parseLastReflected (readFile st.reflections)) = readFile st.observations := by
    rw [hparse]
    rfl
  have hlatest : extractLatestObservationDate (readFile st.observations) = none := by
    show maxDate (headerDates (readFile st.observations)) = none
    rw [hnodates]
    rfl
  simp only [runReflector]
  rw [if_neg (by simp [hblank]), hfil, if_neg (by simp [hblank]),
    if_pos hsize]
  unfold reflectSingle
  rw [horacle, hlatest]
  cases dryRun <;> exact ⟨rfl, rfl⟩

/-- Witness: a pipeline-written observations document with free-form notes
and no date headers. -/
def c10st : MemState :=
  ⟨some (chars "# Observations\n\nfree-form notes with no date headers\n"), none, none⟩

theorem claim_C10_no_date_headers_witness :
    isBlank (readFile c10st.observations) = false ∧
    headerDates (readFile c10st.observations) = [] ∧
    parseLastReflected (readFile c10st.reflections) = none ∧
    (runReflector c3oracle (chars "S") (chars "2026-10-12 14:30 UTC")
        (chars "2020-01-01") true c10st).ret =
      .ok (some (stampTimestamps c3t (chars "2026-10-12 14:30 UTC")
        (chars "2026-10-12 14:30 UTC"))) ∧
    (runReflector c3oracle (chars "S") (chars "2026-10-12 14:30 UTC")
        (chars "2020-01-01") true c10st).calls =
      [⟨chars "S", userContentSingle (readFile c10st.reflections)
        (readFile c10st.observations)⟩] :=
  ⟨by decide, by decide, by decide,
   (claim_C10_no_date_headers c3oracle (chars "S") (chars "2026-10-12 14:30 UTC")
     (chars "2020-01-01") true c10st c3t (by decide) (by decide) (by decide)
     (by decide) (by decide)).1,
   (claim_C10_no_date_headers c3oracle (chars "S") (chars "2026-10-12 14:30 UTC")
     (chars "2020-01-01") true c10st c3t (by decide) (by decide) (by decide)
     (by decide) (by decide)).2⟩

/-! ## Claim C8: atomicity on oracle failure -/

/-- Every `run_reflector` invocation either leaves the file state untouched
or returns a non-exceptional value: all writes happen strictly after every
oracle call has returned successfully. -/
theorem runReflector_state_cases {ε : Type} (oracle : Oracle ε)
    (sysPrompt now cutoff : List Char) (dryRun : Bool) (st : MemState) :
    (runReflector oracle sysPrompt now cutoff dryRun st).state = st ∨
    ∃ v, (runReflector oracle sysPrompt now cutoff dryRun st).ret = .ok v := by
  simp only [runReflector]
  split
  · exact Or.inl rfl
  · split
    · exact Or.inl rfl
    · split
      · exact Or.inl rfl
      · split
        · exact Or.inl rfl
        · exact Or.inr ⟨_, rfl⟩

theorem runReflector_error_state {ε : Type} (oracle : Oracle ε)
    (sysPrompt now cutoff : List Char) (dryRun : Bool) (st : MemState) (e : ε)
    (hret : (runReflector oracle sysPrompt now cutoff dryRun st).ret = .error e) :
    (runReflector oracle sysPrompt now cutoff dryRun st).state = st := by
  rcases runReflector_state_cases oracle sysPrompt now cutoff dryRun st with h | ⟨v, hv⟩
  · exact h
  · rw [hret] at hv
    exact Except.noConfusion hv

/-- Same dichotomy for `run_observer`. -/
theorem runObserver_state_cases {ε : Type} (oracle : Oracle ε)
    (sysPrompt : List Char) (minMessages : Nat) (messages : List Message)
    (today : List Char) (dryRun : Bool) (st : MemState) :
    (runObserver oracle sysPrompt minMessages messages today dryRun st).state = st ∨
    ∃ v, (runObserver oracle sysPrompt minMessages messages today dryRun st).ret = .ok v := by
  simp only [runObserver]
  split
  · exact Or.inl rfl
  · split
    · exact Or.inl rfl
    · split
      · exact Or.inl rfl
      · exact Or.inr ⟨_, rfl⟩

theorem runObserver_error_state {ε : Type} (oracle : Oracle ε)
    (sysPrompt : List Char) (minMessages : Nat) (messages : List Message)
    (today : List Char) (dryRun : Bool) (st : MemState) (e : ε)
    (hret : (runObserver oracle sysPrompt minMessages messages today dryRun st).ret =
      .error e) :
    (runObserver oracle sysPrompt minMessages messages today dryRun st).state = st := by
  rcases runObserver_state_cases oracle sysPrompt minMessages messages today dryRun st
    with h | ⟨v, hv⟩
  · exact h
  · rw [hret] at hv
    exact Except.noConfusion hv

/-- Same dichotomy for `observe_claude_transcript`. -/
theorem observeClaudeTranscript_state_cases {ε : Type} (oracle : Oracle ε)
    (sysPrompt : List Char) (minMessages : Nat) (messages : List Message)
    (lastUuid? : Option (List Char)) (cursorKey today : List Char) (dryRun : Bool)
    (st : MemState) :
    (observeClaudeTranscript oracle sysPrompt minMessages messages lastUuid?
      cursorKey today dryRun st).state = st ∨
    ∃ v, (observeClaudeTranscript oracle sysPrompt minMessages messages lastUuid?
      cursorKey today dryRun st).ret = .ok v := by
  simp only [observeClaudeTranscript]
  split
  · exact Or.inl rfl
  · split
    · exact Or.inl rfl
    · split
      · next e st' calls heq =>
        left
        show st' = st
        have := runObserver_error_state oracle sysPrompt minMessages messages today
          dryRun st e (by rw [heq])
        rw [heq] at this
        exact this
      · next result? st' calls heq =>
        split
        · split
          · exact Or.inr ⟨_, rfl⟩
          · split
            · exact Or.inr ⟨_, rfl⟩
            · exact Or.inr ⟨_, rfl⟩
        · exact Or.inr ⟨_, rfl⟩

/-- Claim C8: if the compression oracle raises, the exception propagates
uncaught out of `run_reflector`, `run_observer` and
`observe_claude_transcript`, and the persisted state (observations,
reflections, cursor) is exactly as before the invocation: every write happens
only after `compress` returns successfully. -/
theorem claim_C8_atomic_on_failure {ε : Type} :
    (∀ (oracle : Oracle ε) (sysPrompt now cutoff : List Char) (dryRun : Bool)
       (st : MemState) (e : ε),
       (runReflector oracle sysPrompt now cutoff dryRun st).ret = .error e →
       (runReflector oracle sysPrompt now cutoff dryRun st).state = st) ∧
    (∀ (oracle : Oracle ε) (sysPrompt : List Char) (minMessages : Nat)
       (messages : List Message) (today : List Char) (dryRun : Bool)
       (st : MemState) (e : ε),
       (runObserver oracle sysPrompt minMessages messages today dryRun st).ret =
         .error e →
       (runObserver oracle sysPrompt minMessages messages today dryRun st).state = st) ∧
    (∀ (oracle : Oracle ε) (sysPrompt : List Char) (minMessages : Nat)
       (messages : List Message) (lastUuid? : Option (List Char))
       (cursorKey today : List Char) (dryRun : Bool) (st : MemState)
       (e : ObserveError ε),
       (observeClaudeTranscript oracle sysPrompt minMessages messages lastUuid?
         cursorKey today dryRun st).ret = .error e →
       (observeClaudeTranscript oracle sysPrompt minMessages messages lastUuid?
         cursorKey today dryRun st).state = st) := by
  refine ⟨?_, ?_, ?_⟩
  · intro oracle sysPrompt now cutoff dryRun st e hret
    exact runReflector_error_state oracle sysPrompt now cutoff dryRun st e hret
  · intro oracle sysPrompt minMessages messages today dryRun st e hret
    exact runObserver_error_state oracle sysPrompt minMessages messages today dryRun
      st e hret
  · intro oracle sysPrompt minMessages messages lastUuid? cursorKey today dryRun st e hret
    rcases observeClaudeTranscript_state_cases oracle sysPrompt minMessages messages
      lastUuid? cursorKey today dryRun st with h | ⟨v, hv⟩
    · exact h
    · rw [hret] at hv
      exact Except.noConfusion hv

/-- Oracle that always raises. -/
def failOracle : Oracle Unit :=
  fun _ _ => .error ()

/-- A message list long enough to pass the minimum-messages threshold. -/
def c8msgs : List Message :=
  List.replicate 5 ⟨chars "user", chars "hello", chars "2026-02-10T10:00:00Z", chars "claude"⟩

theorem claim_C8_atomic_on_failure_witness :
    ((runReflector failOracle (chars "S") (chars "2026-02-11 00:00 UTC")
        (chars "2020-01-01") false c1st0).ret = .error () ∧
      (runReflector failOracle (chars "S") (chars "2026-02-11 00:00 UTC")
        (chars "2020-01-01") false c1st0).state = c1st0) ∧
    ((runObserver failOracle (chars "S") 5 c8msgs (chars "2026-02-10") false c1st0).ret =
        .error () ∧
      (runObserver failOracle (chars "S") 5 c8msgs (chars "2026-02-10") false
        c1st0).state = c1st0) ∧
    ((observeClaudeTranscript failOracle (chars "S") 5 c8msgs
        (some (chars "uuid-1")) (chars "/t.jsonl") (chars "2026-02-10") false
        c1st0).ret = .error (.oracle ()) ∧
      (observeClaudeTranscript failOracle (chars "S") 5 c8msgs
        (some (chars "uuid-1")) (chars "/t.jsonl") (chars "2026-02-10") false
        c1st0).state = c1st0) :=
  ⟨⟨by decide,
    claim_C8_atomic_on_failure.1 failOracle (chars "S") (chars "2026-02-11 00:00 UTC")
      (chars "2020-01-01") false c1st0 () (by decide)⟩,
   ⟨by decide,
    claim_C8_atomic_on_failure.2.1 failOracle (chars "S") 5 c8msgs (chars "2026-02-10")
      false c1st0 () (by decide)⟩,
   ⟨by decide,
    claim_C8_atomic_on_failure.2.2 failOracle (chars "S") 5 c8msgs
      (some (chars "uuid-1")) (chars "/t.jsonl") (chars "2026-02-10") false c1st0
      (.oracle ()) (by decide)⟩⟩

/-! ## Claim C9: malformed persisted state -/

/-- A cursor file content that is not valid JSON. -/
def corruptCursor : List Char :=
  chars "not json"

/-- Claim C9 is false as stated for the cursor half: `Config.load_cursor`
parses the cursor file with **no** exception handling, so corrupt content
raises (propagates a `json.JSONDecodeError`) instead of yielding an empty
mapping. -/
theorem claim_C9_counterexample :
    loadCursor (some corruptCursor) = .error () ∧
    ¬ loadCursor (some corruptCursor) = .ok [] := by
  decide

/-- Claim C9, amended: an **absent** cursor file yields the empty mapping;
**corrupt** cursor content raises and the error propagates to the caller;
and a reflections document with no parseable "Last reflected" metadata line
is treated as the epoch — filtering then returns the full observations text
(first-run behavior) rather than failing. -/
theorem claim_C9_amended :
    loadCursor none = .ok [] ∧
    loadCursor (some corruptCursor) = .error () ∧
    (∀ reflections raw : List Char, parseLastReflected reflections = none →
      filterNewObservations raw (parseLastReflected reflections) = raw) := by
  refine ⟨rfl, by decide, ?_⟩
  intro reflections raw h
  rw [h]
  rfl

theorem claim_C9_amended_witness :
    parseLastReflected (chars "# Reflections\n\n## Core\n- no metadata lines\n") = none ∧
    filterNewObservations c2obs
      (parseLastReflected (chars "# Reflections\n\n## Core\n- no metadata lines\n")) =
        c2obs :=
  ⟨by decide,
   claim_C9_amended.2.2 (chars "# Reflections\n\n## Core\n- no metadata lines\n") c2obs
     (by decide)⟩

end ObsMemory
